import Mathlib

/-! tracy: per-thread error traceback recorder

A shallow embedding of `src/tracy.c` and a verification of its specification.

Conventions of the embedding:

* The four `static __thread` variables of the file form one record, `tracy_state`; every
  C function becomes a function on that record.
* Text written with `fprintf(stderr, ...)` is returned as a list of strings, one entry per
  `fprintf` call, in the order of the calls.
* A `char const *` is an `Option String`: `none` is the null pointer, `some s` points to the
  text `s`.  An `int` is an `Int`; no arithmetic in the file can overflow (the only
  arithmetic is `++stack_ptr` below 1024 and `--i` down to -1).
* Passing a null pointer, or a character array without a terminator, to a `%s` conversion is
  undefined behaviour in C; a function that can do so returns an `Option`, and `none`
  stands for the undefined execution.
* `local_stack.buffer` is a map from `int` indices to cells and `msg_buf.buff` a map from
  offsets to characters.  The C arrays are the cells `0 .. 1023` and the offsets
  `0 .. 512`.
* `tracy.h` and the C library are not part of the sources: `OK` is a parameter, `err_t` is
  taken to be an `int`, and `strerror_r` / `errno` are the fields of `libc`.
-/

namespace Tracy

/-! ## Constants and types -/

/-- `MAX_STACK_SIZE = 1024` -/
def MAX_STACK_SIZE : Int := 1024

/-- `MAX_USER_ERR_MSG_SIZE = 512` -/
def MAX_USER_ERR_MSG_SIZE : Nat := 512

/-- `MAX_ERR_STR_BUF_SIZE = 1024` -/
def MAX_ERR_STR_BUF_SIZE : Nat := 1024

/-- Holds a single trace point in the trace stack. -/
structure stack_buff_t where
  file : Option String
  func : Option String
  line : Int
deriving DecidableEq, Repr

/-- The trace stack: `stack_buff_t buffer[MAX_STACK_SIZE]`. -/
structure error_stack_t where
  buffer : Int → stack_buff_t

/-- The initial error message: `char buff[MAX_USER_ERR_MSG_SIZE + 1]`. -/
structure msg_data_t where
  buff : Nat → Char

/-- The thread-local static data of `tracy.c`. -/
structure tracy_state where
  local_stack : error_stack_t
  stack_ptr : Int
  stack_ptr_save : Int
  msg_buf : msg_data_t

/-- The static data as the C runtime initialises it: all bytes zero. -/
def zero_state : tracy_state where
  local_stack := ⟨fun _ => ⟨none, none, 0⟩⟩
  stack_ptr := 0
  stack_ptr_save := 0
  msg_buf := ⟨fun _ => '\x00'⟩

/-- The part of the C library that `get_error_string` calls. -/
structure libc where
  /-- Value of `(_POSIX_C_SOURCE >= 200112L || _XOPEN_SOURCE >= 600) && ! _GNU_SOURCE` -/
  xsi : Bool
  /-- XSI `strerror_r(err, errbuf, MAX_ERR_STR_BUF_SIZE)`: the returned status and the text
  left in `errbuf`. -/
  strerror_r_xsi : Int → Int × String
  /-- GNU `strerror_r(err, errbuf, MAX_ERR_STR_BUF_SIZE)`: the returned pointer. -/
  strerror_r_gnu : Int → Option String
  /-- Value of `errno` read after a failed XSI `strerror_r`. -/
  errno : Int → Int

/-! ## C library helpers -/

/-- The text a `%s` conversion writes for a `char const *` argument; undefined for null. -/
def fmt_s (p : Option String) : Option String := p

/-- The text a `%d` conversion writes for an `int` argument. -/
def fmt_d (n : Int) : String := toString n

/-- Scan of a character sequence up to its terminator: the characters before the first
`'\0'`, or `none` when there is no terminator. -/
def scan_str : List Char → Option (List Char)
  | [] => none
  | c :: cs => if c = '\x00' then some [] else (scan_str cs).map (fun r => c :: r)

/-- The NUL-terminated string held in a character array of `cap` bytes; `none` when the
array holds no terminator (reading it as a string would run past its end). -/
def c_str (buff : Nat → Char) (cap : Nat) : Option (List Char) :=
  scan_str ((List.range cap).map buff)

/-- `vsnprintf(buff, size, fmt, args)`, where `text` is the complete formatted result of
`fmt` and `args`: at most `size - 1` characters of `text` are written, followed by a
terminator; with `size = 0` nothing is written. -/
def vsnprintf (buff : Nat → Char) (size : Nat) (text : List Char) : Nat → Char :=
  if size = 0 then buff
  else fun i =>
    if i < min text.length (size - 1) then text.getD i '\x00'
    else if i = min text.length (size - 1) then '\x00'
    else buff i

/-! ## Public functions -/

/-- Clear the error traceback. -/
def clear_error (s : tracy_state) : tracy_state :=
  { s with
    stack_ptr := 0
    msg_buf := ⟨fun i => if i = 0 then '\x00' else s.msg_buf.buff i⟩ }

/-- Save the current stack position in a temporary variable. -/
def save_traceback_position (s : tracy_state) : tracy_state :=
  { s with stack_ptr_save := s.stack_ptr }

/-- Restore the stack position from the temporary variable. -/
def restore_traceback_position (s : tracy_state) : tracy_state :=
  { s with stack_ptr := s.stack_ptr_save }

/-- Get the string error corresponding to the numeric value of `err`: the text written to
stderr and the returned pointer. -/
def get_error_string (L : libc) (err : Int) : List String × Option String :=
  if L.xsi then
    if (L.strerror_r_xsi err).1 ≠ 0 then
      (["Error: strerror_r returned errno " ++ fmt_d (L.errno err) ++ "\n"], none)
    else ([], some (L.strerror_r_xsi err).2)
  else ([], L.strerror_r_gnu err)

/-- One `fprintf(stderr, "  File \"%s\", line %d, in %s\n", file, line, func)`. -/
def frame_line (f : stack_buff_t) : Option String :=
  match fmt_s f.file, fmt_s f.func with
  | some file, some func =>
    some ("  File \"" ++ file ++ "\", line " ++ fmt_d f.line ++ ", in " ++ func ++ "\n")
  | _, _ => none

/-- The loop `for (i = stack_ptr - 1; i >= 0; --i)` of `log_traceback`; the argument is
`i + 1`, so `0` is the exit `i = -1` and `k + 1` is an iteration with `i = k`. -/
def log_traceback_loop (buffer : Int → stack_buff_t) : Nat → Option (List String)
  | 0 => some []
  | k + 1 =>
    match frame_line (buffer (k : Int)) with
    | none => none
    | some l =>
      match log_traceback_loop buffer k with
      | none => none
      | some ls => some (l :: ls)

/-- The conditional `fprintf(stderr, "Error message: %s\n", msg_buf.buff)`. -/
def message_line (m : msg_data_t) : Option (List String) :=
  if m.buff 0 ≠ '\x00' then
    match c_str m.buff (MAX_USER_ERR_MSG_SIZE + 1) with
    | none => none
    | some t => some ["Error message: " ++ String.mk t ++ "\n"]
  else some []

/-- Format the traceback and print it to stderr. -/
def log_traceback (L : libc) (err : Int) (s : tracy_state) :
    Option (tracy_state × List String) :=
  match log_traceback_loop s.local_stack.buffer (s.stack_ptr - 1 + 1).toNat with
  | none => none
  | some frames =>
    match fmt_s (get_error_string L err).2 with
    | none => none
    | some d =>
      match message_line s.msg_buf with
      | none => none
      | some msg =>
        some (s, ["CC Traceback:\n"] ++ frames ++ (get_error_string L err).1
                  ++ ["Error: " ++ d ++ " (" ++ fmt_d err ++ ")\n"] ++ msg)

/-- Same as `log_traceback`, but also clears the error afterwards. -/
def log_and_clear_error (L : libc) (err : Int) (s : tracy_state) :
    Option (tracy_state × List String) :=
  match log_traceback L err s with
  | none => none
  | some (s1, out) => some (clear_error s1, out)

/-- Same as `log_and_clear_error`, but only if `err != OK`. -/
def log_and_clear_on_error (L : libc) (OK : Int) (err : Int) (s : tracy_state) :
    Option (tracy_state × List String) :=
  if err ≠ OK then log_and_clear_error L err s else some (s, [])

/-! ## Private functions -/

/-- Add a trace point to the error traceback. -/
def __add_error_trace (file func : Option String) (line : Int) (s : tracy_state) :
    tracy_state × List String :=
  if s.stack_ptr ≥ MAX_STACK_SIZE then
    (s, ["Warning: error stack overflow (no room for stack trace)\n"])
  else
    ({ s with
       local_stack := ⟨fun i => if i = s.stack_ptr then ⟨file, func, line⟩
                                else s.local_stack.buffer i⟩
       stack_ptr := s.stack_ptr + 1 }, [])

/-- Start an error traceback. -/
def __start_error (file func : Option String) (line : Int) (s : tracy_state) :
    tracy_state × List String :=
  __add_error_trace file func line s

/-- Save the initial error message; `text` is the result of formatting the arguments
according to `fmt`. -/
def __set_error_msg (text : List Char) (s : tracy_state) : tracy_state :=
  { s with msg_buf := ⟨vsnprintf s.msg_buf.buff MAX_USER_ERR_MSG_SIZE text⟩ }

/-! ## Call sequences -/

/-- A caller that calls `__add_error_trace` once for every element of `fs`, in order; the
text written to stderr by the calls is collected in order. -/
def push_frames : List stack_buff_t → tracy_state → tracy_state × List String
  | [], s => (s, [])
  | f :: fs, s =>
    ((push_frames fs (__add_error_trace f.file f.func f.line s).1).1,
     (__add_error_trace f.file f.func f.line s).2
       ++ (push_frames fs (__add_error_trace f.file f.func f.line s).1).2)

/-- A trace point given by non-null strings, as the call sites pass them. -/
def frame_of (f : String × String × Int) : stack_buff_t :=
  ⟨some f.1, some f.2.1, f.2.2⟩

/-- The text of one frame line for non-null strings `(file, func, line)`. -/
def frame_text (f : String × String × Int) : String :=
  "  File \"" ++ f.1 ++ "\", line " ++ fmt_d f.2.2 ++ ", in " ++ f.2.1 ++ "\n"

/-- One call of the public interface. -/
inductive op where
  | clear
  | save_checkpoint
  | restore_checkpoint
  | begin (file func : Option String) (line : Int)
  | push_frame (file func : Option String) (line : Int)
  | set_message (text : List Char)
  | render (err : Int)
  | render_and_clear (err : Int)
  | render_and_clear_if_error (err : Int)

/-- The effect of one call on the static data, with the text it writes to stderr. -/
def step (L : libc) (OK : Int) : op → tracy_state → Option (tracy_state × List String)
  | .clear, s => some (clear_error s, [])
  | .save_checkpoint, s => some (save_traceback_position s, [])
  | .restore_checkpoint, s => some (restore_traceback_position s, [])
  | .begin file func line, s => some (__start_error file func line s)
  | .push_frame file func line, s => some (__add_error_trace file func line s)
  | .set_message text, s => some (__set_error_msg text s, [])
  | .render err, s => log_traceback L err s
  | .render_and_clear err, s => log_and_clear_error L err s
  | .render_and_clear_if_error err, s => log_and_clear_on_error L OK err s

/-- A sequence of calls, executed in order from the state `s`. -/
def run (L : libc) (OK : Int) : List op → tracy_state → Option (tracy_state × List String)
  | [], s => some (s, [])
  | o :: os, s =>
    match step L OK o s with
    | none => none
    | some (s1, out1) =>
      match run L OK os s1 with
      | none => none
      | some (s2, out2) => some (s2, out1 ++ out2)

/-- A C library for the examples: its GNU `strerror_r` describes every code as
"I/O error". -/
def example_libc : libc :=
  ⟨false, fun _ => (0, ""), fun _ => some "I/O error", fun _ => 0⟩

/-- A sequence of calls for the examples. -/
def example_ops : List op :=
  [op.begin (some "a.c") (some "inner") 20, op.save_checkpoint,
   op.push_frame (some "a.c") (some "outer") 10, op.set_message "disk full".toList,
   op.render 5, op.restore_checkpoint, op.render_and_clear_if_error 5,
   op.restore_checkpoint]

/-- A sequence of calls without `save_checkpoint`, for the examples. -/
def example_ops_no_save : List op :=
  [op.begin (some "a.c") (some "inner") 20, op.push_frame (some "a.c") (some "outer") 10,
   op.set_message "disk full".toList, op.render 5, op.push_frame (some "b.c") (some "main") 7]

/-- The cell index that `__add_error_trace` writes in the state `s`: `stack_ptr`, or none
when the overflow guard returns first. -/
def add_error_trace_write (s : tracy_state) : Option Int :=
  if s.stack_ptr ≥ MAX_STACK_SIZE then none else some s.stack_ptr

/-- The cell indices that the loop of `log_traceback` reads, in the order of the
iterations; the argument is `i + 1`, as in `log_traceback_loop`. -/
def log_traceback_reads : Nat → List Int
  | 0 => []
  | k + 1 => (k : Int) :: log_traceback_reads k

/-- The text on stderr: the strings written by the `fprintf` calls, one after the other. -/
def stderr_text : List String → List Char
  | [] => []
  | x :: xs => x.toList ++ stderr_text xs

/-- The lines of a text: the runs of characters that end at a newline, without that
newline, and the run after the last newline when it is not empty. -/
def text_lines : List Char → List (List Char)
  | [] => []
  | c :: cs =>
    if c = '\n' then [] :: text_lines cs
    else
      match text_lines cs with
      | [] => [[c]]
      | l :: ls => (c :: l) :: ls

/-- The warning of `__add_error_trace`. -/
def overflow_warning : String :=
  "Warning: error stack overflow (no room for stack trace)\n"

/-! ## Lemmas on the C library helpers -/

theorem get_error_string_fst_of_some (L : libc) (err : Int) (d : String)
    (h : (get_error_string L err).2 = some d) : (get_error_string L err).1 = [] := by
  unfold get_error_string at h ⊢
  by_cases hx : L.xsi = true
  · by_cases hs : (L.strerror_r_xsi err).1 ≠ 0
    · simp [hx, hs] at h
    · simp [hx, hs]
  · simp [hx]

theorem scan_str_append_nul (l r : List Char) :
    scan_str (l ++ '\x00' :: r) = some (l.takeWhile (fun c => c ≠ '\x00')) := by
  induction l with
  | nil => simp [scan_str]
  | cons c cs ih =>
    by_cases hc : c = '\x00'
    · simp [scan_str, hc]
    · simp [scan_str, hc, ih]

/-- The first `l.length` bytes of an array that starts with the characters of `l`. -/
theorem map_range_eq (f : Nat → Char) (l : List Char)
    (h : ∀ i : Nat, i < l.length → l[i]? = some (f i)) :
    (List.range l.length).map f = l := by
  apply List.ext_getElem?
  intro i
  by_cases hi : i < l.length
  · rw [h i hi, List.getElem?_map, List.getElem?_range hi]
    rfl
  · rw [List.getElem?_eq_none (by simpa using hi), List.getElem?_eq_none (by simpa using hi)]

/-- An array that holds the characters of `l` followed by a terminator holds the string
`l`, cut at its first `'\0'` if it has one. -/
theorem c_str_of_prefix (f : Nat → Char) (cap : Nat) (l : List Char) (hcap : l.length < cap)
    (h : ∀ i : Nat, i < l.length → l[i]? = some (f i)) (h0 : f l.length = '\x00') :
    c_str f cap = some (l.takeWhile (fun c => c ≠ '\x00')) := by
  obtain ⟨m, rfl⟩ : ∃ m, cap = l.length + (m + 1) := ⟨cap - l.length - 1, by omega⟩
  unfold c_str
  rw [List.range_add, List.map_append, map_range_eq f l h, List.range_succ_eq_map,
    List.map_cons, List.map_cons]
  simp only [Nat.add_zero, h0]
  exact scan_str_append_nul _ _

/-- The string held by the buffer after `vsnprintf` with a positive `size`. -/
theorem c_str_vsnprintf (buff : Nat → Char) (size cap : Nat) (text : List Char)
    (hsize : 0 < size) (hcap : size ≤ cap) :
    c_str (vsnprintf buff size text) cap
      = some ((text.take (size - 1)).takeWhile (fun c => c ≠ '\x00')) := by
  have hlen : (text.take (size - 1)).length = min text.length (size - 1) := by
    rw [List.length_take, Nat.min_comm]
  have hne : size ≠ 0 := Nat.pos_iff_ne_zero.mp hsize
  apply c_str_of_prefix
  · rw [hlen]; omega
  · intro i hi
    rw [hlen] at hi
    have hi1 : i < size - 1 := lt_of_lt_of_le hi (Nat.min_le_right _ _)
    have hi2 : i < text.length := lt_of_lt_of_le hi (Nat.min_le_left _ _)
    simp only [vsnprintf, hne, if_false, hi, if_true]
    rw [List.getElem?_take_of_lt hi1, List.getElem?_eq_getElem hi2,
      List.getD_eq_getElem _ _ hi2]
  · rw [hlen]
    simp [vsnprintf, hne]

/-! ## Lemmas on the trace stack -/

theorem add_error_trace_full (file func : Option String) (line : Int) (s : tracy_state)
    (h : s.stack_ptr ≥ MAX_STACK_SIZE) :
    __add_error_trace file func line s = (s, [overflow_warning]) := by
  simp [__add_error_trace, h, overflow_warning]

theorem add_error_trace_room (file func : Option String) (line : Int) (s : tracy_state)
    (h : s.stack_ptr < MAX_STACK_SIZE) :
    __add_error_trace file func line s =
      ({ s with
         local_stack := ⟨fun i => if i = s.stack_ptr then ⟨file, func, line⟩
                                  else s.local_stack.buffer i⟩
         stack_ptr := s.stack_ptr + 1 }, []) := by
  have h2 : ¬ s.stack_ptr ≥ MAX_STACK_SIZE := not_le.mpr h
  simp [__add_error_trace, h2]

/-- Pushing leaves the checkpoint and the message alone. -/
theorem push_frames_save_msg (fs : List stack_buff_t) (s : tracy_state) :
    (push_frames fs s).1.stack_ptr_save = s.stack_ptr_save ∧
    (push_frames fs s).1.msg_buf = s.msg_buf := by
  induction fs generalizing s with
  | nil => simp [push_frames]
  | cons f fs ih =>
    simp only [push_frames]
    rcases lt_or_le s.stack_ptr MAX_STACK_SIZE with h | h
    · rw [add_error_trace_room _ _ _ _ h]
      exact ih _
    · rw [add_error_trace_full _ _ _ _ h]
      exact ih _

/-- Pushing never writes a cell below the depth at which it starts. -/
theorem push_frames_below (fs : List stack_buff_t) (s : tracy_state) (i : Int)
    (hi : i < s.stack_ptr) :
    (push_frames fs s).1.local_stack.buffer i = s.local_stack.buffer i := by
  induction fs generalizing s with
  | nil => simp [push_frames]
  | cons f fs ih =>
    simp only [push_frames]
    rcases lt_or_le s.stack_ptr MAX_STACK_SIZE with h | h
    · rw [add_error_trace_room _ _ _ _ h]
      rw [ih _ (by simp; omega)]
      have : i ≠ s.stack_ptr := by omega
      simp [this]
    · rw [add_error_trace_full _ _ _ _ h]
      exact ih _ hi

/-- Depth, stored cells and warnings after a sequence of pushes that starts with room for
`fs.length` more frames. -/
theorem push_frames_room (fs : List stack_buff_t) (s : tracy_state)
    (h : s.stack_ptr + fs.length ≤ MAX_STACK_SIZE) :
    (push_frames fs s).1.stack_ptr = s.stack_ptr + fs.length ∧
    (push_frames fs s).2 = [] ∧
    ∀ k : Nat, k < fs.length →
      fs[k]? = some ((push_frames fs s).1.local_stack.buffer (s.stack_ptr + k)) := by
  induction fs generalizing s with
  | nil => simp [push_frames]
  | cons f fs ih =>
    have hlt : s.stack_ptr < MAX_STACK_SIZE := by
      simp only [List.length_cons, Nat.cast_add, Nat.cast_one] at h
      omega
    simp only [push_frames]
    rw [add_error_trace_room _ _ _ _ hlt]
    have h1 := ih { s with
         local_stack := ⟨fun i => if i = s.stack_ptr then ⟨f.file, f.func, f.line⟩
                                  else s.local_stack.buffer i⟩
         stack_ptr := s.stack_ptr + 1 } (by
           simp only [List.length_cons, Nat.cast_add, Nat.cast_one] at h
           simp only
           omega)
    obtain ⟨hp, hw, hb⟩ := h1
    refine ⟨?_, ?_, ?_⟩
    · rw [hp]; simp only [List.length_cons, Nat.cast_add, Nat.cast_one]; omega
    · simp [hw]
    · intro k hk
      cases k with
      | zero =>
        rw [push_frames_below _ _ _ (by simp)]
        simp
      | succ j =>
        have := hb j (by simpa using hk)
        simp only [List.getElem?_cons_succ]
        rw [this]
        congr 2
        simp only [Nat.cast_add, Nat.cast_one]
        omega

/-! ## Lemmas on rendering -/

theorem frame_line_frame_of (f : String × String × Int) :
    frame_line (frame_of f) = some (frame_text f) := rfl

/-- The loop reads only the cells below its starting index. -/
theorem log_traceback_loop_congr (b1 b2 : Int → stack_buff_t) (n : Nat)
    (h : ∀ k : Nat, k < n → b1 k = b2 k) :
    log_traceback_loop b1 n = log_traceback_loop b2 n := by
  induction n with
  | zero => rfl
  | succ n ih =>
    simp only [log_traceback_loop]
    rw [h n (Nat.lt_succ_self n), ih (fun k hk => h k (Nat.lt_succ_of_lt hk))]

/-- The loop over cells that hold the non-null frames `fs` writes their lines from the
last cell down to cell 0. -/
theorem log_traceback_loop_frames (b : Int → stack_buff_t) (fs : List (String × String × Int))
    (n : Nat) (hn : n ≤ fs.length)
    (h : ∀ k : Nat, k < n → (fs.map frame_of)[k]? = some (b k)) :
    log_traceback_loop b n = some (((fs.take n).map frame_text).reverse) := by
  induction n with
  | zero => simp [log_traceback_loop]
  | succ n ih =>
    have hlt : n < fs.length := hn
    have hb := h n (Nat.lt_succ_self n)
    rw [List.getElem?_map, List.getElem?_eq_getElem hlt] at hb
    simp only [Option.map_some', Option.some.injEq] at hb
    simp only [log_traceback_loop]
    rw [← hb, frame_line_frame_of, ih (Nat.le_of_lt hlt) (fun k hk => h k (Nat.lt_succ_of_lt hk))]
    simp only [List.take_succ, List.getElem?_eq_getElem hlt, Option.toList, List.map_append,
      List.reverse_append, List.map_cons, List.map_nil, List.reverse_cons, List.reverse_nil,
      List.nil_append, List.singleton_append]

/-- The output of `log_traceback` in terms of its three parts. -/
theorem log_traceback_eq (L : libc) (err : Int) (s : tracy_state) (frames msg : List String)
    (d : String)
    (hf : log_traceback_loop s.local_stack.buffer s.stack_ptr.toNat = some frames)
    (hd : (get_error_string L err).2 = some d)
    (hm : message_line s.msg_buf = some msg) :
    log_traceback L err s =
      some (s, "CC Traceback:\n" :: (frames ++ ["Error: " ++ d ++ " (" ++ toString err ++ ")\n"]
        ++ msg)) := by
  have h1 : (s.stack_ptr - 1 + 1).toNat = s.stack_ptr.toNat := by
    congr 1; omega
  unfold log_traceback
  rw [h1, hf]
  simp only [fmt_s, hd, hm, get_error_string_fst_of_some L err d hd, fmt_d]
  simp

theorem message_line_empty (m : msg_data_t) (h : m.buff 0 = '\x00') :
    message_line m = some [] := by
  simp [message_line, h]

theorem push_frames_append (a b : List stack_buff_t) (s : tracy_state) :
    push_frames (a ++ b) s =
      ((push_frames b (push_frames a s).1).1,
       (push_frames a s).2 ++ (push_frames b (push_frames a s).1).2) := by
  induction a generalizing s with
  | nil => simp [push_frames]
  | cons f fs ih => simp [push_frames, ih]

/-- A render returns the state it was given. -/
theorem log_traceback_state (L : libc) (err : Int) (s s1 : tracy_state) (out : List String)
    (h : log_traceback L err s = some (s1, out)) : s1 = s := by
  unfold log_traceback at h
  split at h
  · exact absurd h (by simp)
  · split at h
    · exact absurd h (by simp)
    · split at h
      · exact absurd h (by simp)
      · simp only [Option.some.injEq, Prod.mk.injEq] at h
        exact h.1.symm

/-- The text written by a render depends only on the depth, the cells below the depth and
the message buffer. -/
theorem log_traceback_congr (L : libc) (err : Int) (s1 s2 : tracy_state)
    (hp : s1.stack_ptr = s2.stack_ptr)
    (hb : ∀ i : Int, i < s2.stack_ptr → s1.local_stack.buffer i = s2.local_stack.buffer i)
    (hm : s1.msg_buf = s2.msg_buf) :
    (log_traceback L err s1).map Prod.snd = (log_traceback L err s2).map Prod.snd := by
  have hloop : log_traceback_loop s1.local_stack.buffer (s1.stack_ptr - 1 + 1).toNat
      = log_traceback_loop s2.local_stack.buffer (s2.stack_ptr - 1 + 1).toNat := by
    rw [hp]
    apply log_traceback_loop_congr
    intro k hk
    apply hb
    omega
  unfold log_traceback
  rw [hloop, hm]
  cases log_traceback_loop s2.local_stack.buffer (s2.stack_ptr - 1 + 1).toNat with
  | none => rfl
  | some frames =>
    cases fmt_s (get_error_string L err).2 with
    | none => rfl
    | some d =>
      cases message_line s2.msg_buf with
      | none => rfl
      | some msg => rfl

/-- The string stored by `__set_error_msg`: at most 511 characters of the formatted text. -/
theorem set_error_msg_c_str (text : List Char) (s : tracy_state) :
    c_str (__set_error_msg text s).msg_buf.buff (MAX_USER_ERR_MSG_SIZE + 1)
      = some ((text.take 511).takeWhile (fun c => c ≠ '\x00')) :=
  c_str_vsnprintf s.msg_buf.buff MAX_USER_ERR_MSG_SIZE (MAX_USER_ERR_MSG_SIZE + 1) text
    (by decide) (by decide)

/-- The buffer holds the empty string exactly when its first byte is the terminator. -/
theorem c_str_nil_iff (buff : Nat → Char) (n : Nat) (m : List Char)
    (h : c_str buff (n + 1) = some m) : m = [] ↔ buff 0 = '\x00' := by
  unfold c_str at h
  rw [List.range_succ_eq_map, List.map_cons] at h
  simp only [scan_str] at h
  by_cases h0 : buff 0 = '\x00'
  · simp only [h0, if_true, Option.some.injEq] at h
    simp [h0, ← h]
  · simp only [h0, if_false, Option.map_eq_some'] at h
    obtain ⟨r, -, hr⟩ := h
    simp [h0, ← hr]

theorem c_str_clear_error (s : tracy_state) (n : Nat) :
    c_str (clear_error s).msg_buf.buff (n + 1) = some [] := by
  unfold c_str
  rw [List.range_succ_eq_map, List.map_cons]
  simp [scan_str, clear_error]

theorem message_line_of_c_str (m : msg_data_t) (t : List Char)
    (h : c_str m.buff (MAX_USER_ERR_MSG_SIZE + 1) = some t) :
    message_line m
      = some (if t = [] then [] else ["Error message: " ++ String.mk t ++ "\n"]) := by
  have hiff := c_str_nil_iff m.buff MAX_USER_ERR_MSG_SIZE t h
  unfold message_line
  rw [h]
  by_cases h0 : m.buff 0 = '\x00'
  · simp [h0, hiff.mpr h0]
  · have ht : t ≠ [] := fun ht => h0 (hiff.mp ht)
    simp [h0, ht]

theorem log_and_clear_error_eq (L : libc) (err : Int) (s : tracy_state) :
    log_and_clear_error L err s
      = (log_traceback L err s).map (fun r => (clear_error s, r.2)) := by
  unfold log_and_clear_error
  cases h : log_traceback L err s with
  | none => rfl
  | some r =>
    obtain ⟨s1, out⟩ := r
    rw [log_traceback_state L err s s1 out h]
    rfl

/-- Every call keeps the depth and the checkpoint within `0 .. MAX_STACK_SIZE`. -/
theorem step_bounds (L : libc) (OK : Int) (o : op) (s s1 : tracy_state) (out : List String)
    (h : step L OK o s = some (s1, out))
    (hi : 0 ≤ s.stack_ptr ∧ s.stack_ptr ≤ MAX_STACK_SIZE
      ∧ 0 ≤ s.stack_ptr_save ∧ s.stack_ptr_save ≤ MAX_STACK_SIZE) :
    0 ≤ s1.stack_ptr ∧ s1.stack_ptr ≤ MAX_STACK_SIZE
      ∧ 0 ≤ s1.stack_ptr_save ∧ s1.stack_ptr_save ≤ MAX_STACK_SIZE := by
  obtain ⟨h1, h2, h3, h4⟩ := hi
  have hclear : 0 ≤ (clear_error s).stack_ptr ∧ (clear_error s).stack_ptr ≤ MAX_STACK_SIZE
      ∧ 0 ≤ (clear_error s).stack_ptr_save ∧ (clear_error s).stack_ptr_save ≤ MAX_STACK_SIZE :=
    ⟨le_refl _, by simp [clear_error, MAX_STACK_SIZE], h3, h4⟩
  have hpush : ∀ (file func : Option String) (line : Int),
      0 ≤ (__add_error_trace file func line s).1.stack_ptr
      ∧ (__add_error_trace file func line s).1.stack_ptr ≤ MAX_STACK_SIZE
      ∧ 0 ≤ (__add_error_trace file func line s).1.stack_ptr_save
      ∧ (__add_error_trace file func line s).1.stack_ptr_save ≤ MAX_STACK_SIZE := by
    intro file func line
    rcases lt_or_le s.stack_ptr MAX_STACK_SIZE with hlt | hge
    · rw [add_error_trace_room _ _ _ _ hlt]
      exact ⟨by simp only; omega, by simp only; omega, h3, h4⟩
    · rw [add_error_trace_full _ _ _ _ hge]
      exact ⟨h1, h2, h3, h4⟩
  have hrc : ∀ err : Int, log_and_clear_error L err s = some (s1, out) → s1 = clear_error s := by
    intro err he
    rw [log_and_clear_error_eq] at he
    simp only [Option.map_eq_some', Prod.mk.injEq] at he
    obtain ⟨r, -, hr, -⟩ := he
    exact hr.symm
  cases o with
  | clear =>
    simp only [step, Option.some.injEq, Prod.mk.injEq] at h
    rw [← h.1]; exact hclear
  | save_checkpoint =>
    simp only [step, Option.some.injEq, Prod.mk.injEq] at h
    rw [← h.1]; exact ⟨h1, h2, h1, h2⟩
  | restore_checkpoint =>
    simp only [step, Option.some.injEq, Prod.mk.injEq] at h
    rw [← h.1]; exact ⟨h3, h4, h3, h4⟩
  | begin file func line =>
    simp only [step, __start_error, Option.some.injEq] at h
    have := hpush file func line
    rw [h] at this; exact this
  | push_frame file func line =>
    simp only [step, Option.some.injEq] at h
    have := hpush file func line
    rw [h] at this; exact this
  | set_message text =>
    simp only [step, Option.some.injEq, Prod.mk.injEq] at h
    rw [← h.1]; exact ⟨h1, h2, h3, h4⟩
  | render err =>
    simp only [step] at h
    rw [log_traceback_state L err s s1 out h]; exact ⟨h1, h2, h3, h4⟩
  | render_and_clear err =>
    simp only [step] at h
    rw [hrc err h]; exact hclear
  | render_and_clear_if_error err =>
    simp only [step, log_and_clear_on_error] at h
    by_cases he : err = OK
    · simp only [he, ne_eq, not_true_eq_false, if_false, Option.some.injEq,
        Prod.mk.injEq] at h
      rw [← h.1]; exact ⟨h1, h2, h3, h4⟩
    · simp only [ne_eq, he, not_false_eq_true, if_true] at h
      rw [hrc err h]; exact hclear

theorem run_bounds (L : libc) (OK : Int) (ops : List op) (s s1 : tracy_state)
    (out : List String) (h : run L OK ops s = some (s1, out))
    (hi : 0 ≤ s.stack_ptr ∧ s.stack_ptr ≤ MAX_STACK_SIZE
      ∧ 0 ≤ s.stack_ptr_save ∧ s.stack_ptr_save ≤ MAX_STACK_SIZE) :
    0 ≤ s1.stack_ptr ∧ s1.stack_ptr ≤ MAX_STACK_SIZE
      ∧ 0 ≤ s1.stack_ptr_save ∧ s1.stack_ptr_save ≤ MAX_STACK_SIZE := by
  induction ops generalizing s out with
  | nil =>
    simp only [run, Option.some.injEq, Prod.mk.injEq] at h
    rw [← h.1]; exact hi
  | cons o os ih =>
    simp only [run] at h
    cases hs : step L OK o s with
    | none => rw [hs] at h; exact absurd h (by simp)
    | some r =>
      obtain ⟨s2, out2⟩ := r
      rw [hs] at h
      simp only at h
      cases hr : run L OK os s2 with
      | none => rw [hr] at h; exact absurd h (by simp)
      | some r2 =>
        obtain ⟨s3, out3⟩ := r2
        rw [hr] at h
        simp only [Option.some.injEq, Prod.mk.injEq] at h
        obtain ⟨h1, -⟩ := h
        subst h1
        exact ih s2 out3 hr (step_bounds L OK o s s2 out2 hs hi)

/-- A null pointer from `get_error_string` reaches the `%s` conversion of the `Error:`
line. -/
theorem log_traceback_null (L : libc) (err : Int) (s : tracy_state)
    (h : (get_error_string L err).2 = none) : log_traceback L err s = none := by
  unfold log_traceback
  cases log_traceback_loop s.local_stack.buffer (s.stack_ptr - 1 + 1).toNat with
  | none => rfl
  | some frames => simp [fmt_s, h]

/-! ## Claims -/

/-- C1 (order): from a cleared state, after pushing the `N <= 1024` frames `fs` in order,
`log_traceback` writes the header, then exactly `N` frame lines, the `k`-th of which is the
line of the frame pushed `(N + 1 - k)`-th, then the `Error:` line: the frames appear in
reverse push order. -/
theorem render_reverse_push_order (L : libc) (err : Int) (d : String) (s0 : tracy_state)
    (fs : List (String × String × Int)) (hN : fs.length ≤ 1024)
    (hd : (get_error_string L err).2 = some d) :
    (log_traceback L err (push_frames (fs.map frame_of) (clear_error s0)).1).map Prod.snd =
      some ("CC Traceback:\n" ::
        (fs.reverse.map (fun f =>
            "  File \"" ++ f.1 ++ "\", line " ++ toString f.2.2 ++ ", in " ++ f.2.1 ++ "\n")
          ++ ["Error: " ++ d ++ " (" ++ toString err ++ ")\n"]))
    ∧ (fs.reverse.map (fun f =>
          "  File \"" ++ f.1 ++ "\", line " ++ toString f.2.2 ++ ", in " ++ f.2.1 ++ "\n")).length
        = fs.length
    ∧ ∀ k : Nat, 1 ≤ k → k ≤ fs.length →
        (fs.reverse.map (fun f =>
          "  File \"" ++ f.1 ++ "\", line " ++ toString f.2.2 ++ ", in " ++ f.2.1 ++ "\n"))[k - 1]?
        = (fs[fs.length - k]?).map (fun f =>
          "  File \"" ++ f.1 ++ "\", line " ++ toString f.2.2 ++ ", in " ++ f.2.1 ++ "\n") := by
  have hc : (clear_error s0).stack_ptr = 0 := rfl
  have hroom := push_frames_room (fs.map frame_of) (clear_error s0) (by
    rw [hc, List.length_map]; simp only [MAX_STACK_SIZE]; omega)
  obtain ⟨hp, -, hb⟩ := hroom
  rw [hc, List.length_map] at hp
  have hmsg := (push_frames_save_msg (fs.map frame_of) (clear_error s0)).2
  have hm : message_line (push_frames (fs.map frame_of) (clear_error s0)).1.msg_buf = some [] := by
    rw [hmsg]; exact message_line_empty _ (by simp [clear_error])
  have hloop := log_traceback_loop_frames
    (push_frames (fs.map frame_of) (clear_error s0)).1.local_stack.buffer fs fs.length
    (le_refl _) (fun k hk => by
      have := hb k (by simpa using hk)
      rw [hc] at this
      simpa using this)
  have hn : (push_frames (fs.map frame_of) (clear_error s0)).1.stack_ptr.toNat = fs.length := by
    rw [hp]; simp
  rw [← hn] at hloop
  refine ⟨?_, by simp, ?_⟩
  · rw [log_traceback_eq L err _ _ [] d hloop hd hm]
    simp only [Option.map_some', hn, List.take_length, List.append_nil, List.map_reverse]
    rfl
  · intro k hk1 hk2
    rw [List.getElem?_map, List.getElem?_reverse (by omega)]
    congr 2
    omega

theorem render_reverse_push_order_witness :
    (log_traceback example_libc 5
        (push_frames ([("a.c", "outer", 10), ("a.c", "inner", 20)].map frame_of)
          (clear_error zero_state)).1).map Prod.snd =
      some ["CC Traceback:\n", "  File \"a.c\", line 20, in inner\n",
        "  File \"a.c\", line 10, in outer\n", "Error: I/O error (5)\n"] :=
  (render_reverse_push_order example_libc 5
    "I/O error" zero_state [("a.c", "outer", 10), ("a.c", "inner", 20)] (by decide) rfl).1

/-- C2 (bound): from a cleared state, 1025 pushes leave depth 1024 with the first 1024
frames stored in order, the 1025th push only writes the warning; in any state with depth
`MAX_STACK_SIZE` a push writes the warning and returns the state unchanged, and in any state
with a smaller depth it writes nothing. -/
theorem push_bound (s0 : tracy_state) (fs : List stack_buff_t) (hlen : fs.length = 1025)
    (s : tracy_state) (file func : Option String) (line : Int) :
    ((push_frames fs (clear_error s0)).1.stack_ptr = 1024
      ∧ (∀ k : Nat, k < 1024 →
          fs[k]? = some ((push_frames fs (clear_error s0)).1.local_stack.buffer k))
      ∧ (push_frames fs (clear_error s0)).1 = (push_frames (fs.take 1024) (clear_error s0)).1
      ∧ (push_frames fs (clear_error s0)).2
          = ["Warning: error stack overflow (no room for stack trace)\n"])
    ∧ (s.stack_ptr = MAX_STACK_SIZE →
        __add_error_trace file func line s
          = (s, ["Warning: error stack overflow (no room for stack trace)\n"]))
    ∧ (s.stack_ptr < MAX_STACK_SIZE → (__add_error_trace file func line s).2 = []) := by
  have hc : (clear_error s0).stack_ptr = 0 := rfl
  have htake : (fs.take 1024).length = 1024 := by
    rw [List.length_take, hlen]; rfl
  obtain ⟨hp, hw, hb⟩ := push_frames_room (fs.take 1024) (clear_error s0) (by
    rw [hc, htake]; simp [MAX_STACK_SIZE])
  rw [hc, htake] at hp
  have hfull : (push_frames (fs.take 1024) (clear_error s0)).1.stack_ptr ≥ MAX_STACK_SIZE := by
    rw [hp]; simp [MAX_STACK_SIZE]
  have hdrop : (fs.drop 1024).length = 1 := by
    rw [List.length_drop, hlen]
  obtain ⟨x, hx⟩ := List.length_eq_one.mp hdrop
  have hsplit : push_frames fs (clear_error s0)
      = ((push_frames (fs.take 1024) (clear_error s0)).1, [overflow_warning]) := by
    conv_lhs => rw [← List.take_append_drop 1024 fs]
    rw [push_frames_append, hx, hw]
    simp only [push_frames, add_error_trace_full _ _ _ _ hfull, List.nil_append,
      List.append_nil]
  refine ⟨⟨?_, ?_, ?_, ?_⟩, ?_, ?_⟩
  · rw [hsplit]; simpa using hp
  · intro k hk
    have := hb k (by rw [htake]; exact hk)
    rw [hc, List.getElem?_take_of_lt hk] at this
    rw [hsplit]
    simpa using this
  · rw [hsplit]
  · rw [hsplit]; rfl
  · intro h
    exact add_error_trace_full _ _ _ _ (le_of_eq h.symm)
  · intro h
    rw [add_error_trace_room _ _ _ _ h]

theorem push_bound_witness :
    (push_frames (List.replicate 1025 (frame_of ("a.c", "f", 1))) (clear_error zero_state)).1.stack_ptr
        = 1024
    ∧ __add_error_trace (some "a.c") (some "f") 1 { zero_state with stack_ptr := 1024 }
        = ({ zero_state with stack_ptr := 1024 },
           ["Warning: error stack overflow (no room for stack trace)\n"])
    ∧ (__add_error_trace (some "a.c") (some "f") 1 zero_state).2 = [] :=
  ⟨(push_bound zero_state (List.replicate 1025 (frame_of ("a.c", "f", 1)))
      (List.length_replicate _ _) zero_state none none 0).1.1,
   (push_bound zero_state (List.replicate 1025 (frame_of ("a.c", "f", 1)))
      (List.length_replicate _ _) { zero_state with stack_ptr := 1024 }
      (some "a.c") (some "f") 1).2.1 rfl,
   (push_bound zero_state (List.replicate 1025 (frame_of ("a.c", "f", 1)))
      (List.length_replicate _ _) zero_state (some "a.c") (some "f") 1).2.2 (by decide)⟩

/-- C3 (checkpoint round trip): after `save_traceback_position`, any number of pushes of
arbitrary frames and `restore_traceback_position`, the depth is the depth before the save,
the cells below it and the message buffer are unchanged, and `log_traceback` writes the same
text as it would have written before the save. -/
theorem checkpoint_round_trip (L : libc) (err : Int) (s : tracy_state)
    (fs : List stack_buff_t) :
    (restore_traceback_position (push_frames fs (save_traceback_position s)).1).stack_ptr
        = s.stack_ptr
    ∧ (∀ i : Int, i < s.stack_ptr →
        (restore_traceback_position
          (push_frames fs (save_traceback_position s)).1).local_stack.buffer i
        = s.local_stack.buffer i)
    ∧ (restore_traceback_position (push_frames fs (save_traceback_position s)).1).msg_buf
        = s.msg_buf
    ∧ (log_traceback L err
          (restore_traceback_position (push_frames fs (save_traceback_position s)).1)).map
          Prod.snd
        = (log_traceback L err s).map Prod.snd := by
  have hsave := push_frames_save_msg fs (save_traceback_position s)
  have h1 : (restore_traceback_position
      (push_frames fs (save_traceback_position s)).1).stack_ptr = s.stack_ptr := by
    simp only [restore_traceback_position, hsave.1]
    rfl
  have h2 : ∀ i : Int, i < s.stack_ptr →
      (restore_traceback_position
        (push_frames fs (save_traceback_position s)).1).local_stack.buffer i
      = s.local_stack.buffer i := by
    intro i hi
    exact push_frames_below fs (save_traceback_position s) i hi
  have h3 : (restore_traceback_position
      (push_frames fs (save_traceback_position s)).1).msg_buf = s.msg_buf := hsave.2
  exact ⟨h1, h2, h3, log_traceback_congr L err _ _ h1 h2 h3⟩

/-- C4 (message truncation), evaluated on the code: for a formatted text of 512
characters `__set_error_msg` stores the first 511 characters and the terminator, not the
first 512 characters, because `vsnprintf` is given the size `MAX_USER_ERR_MSG_SIZE` and
that size includes the terminator. -/
theorem set_error_msg_512_stores_511 :
    c_str (__set_error_msg (List.replicate 512 'a') zero_state).msg_buf.buff
        (MAX_USER_ERR_MSG_SIZE + 1) = some (List.replicate 511 'a')
    ∧ c_str (__set_error_msg (List.replicate 512 'a') zero_state).msg_buf.buff
        (MAX_USER_ERR_MSG_SIZE + 1)
      ≠ some ((List.replicate 512 'a').take (min (List.replicate 512 'a').length 512)) := by
  have hw : ∀ n : Nat, List.takeWhile (fun c => c ≠ '\x00') (List.replicate n 'a')
      = List.replicate n 'a' := by
    intro n
    rw [List.takeWhile_eq_self_iff]
    intro x hx
    rw [List.eq_of_mem_replicate hx]
    decide
  have hmin : min 511 512 = 511 := by decide
  have h : c_str (__set_error_msg (List.replicate 512 'a') zero_state).msg_buf.buff
      (MAX_USER_ERR_MSG_SIZE + 1) = some (List.replicate 511 'a') := by
    rw [set_error_msg_c_str, List.take_replicate, hw, hmin]
  refine ⟨h, ?_⟩
  rw [h, List.take_replicate, List.length_replicate]
  intro hc
  have hlen := congrArg List.length (Option.some.inj hc)
  rw [List.length_replicate, List.length_replicate] at hlen
  omega

/-- C5 (success sentinel): `log_and_clear_on_error` with `err = OK` writes nothing and
returns the state unchanged; with any other code it writes what `log_traceback` writes for
that code and state and returns `clear_error` of the state, which has depth 0 and an empty
message. -/
theorem log_and_clear_on_error_sentinel (L : libc) (OK err : Int) (s : tracy_state) :
    log_and_clear_on_error L OK err s
      = (if err = OK then some (s, [])
         else (log_traceback L err s).map (fun r => (clear_error s, r.2)))
    ∧ (clear_error s).stack_ptr = 0
    ∧ (clear_error s).msg_buf.buff 0 = '\x00'
    ∧ c_str (clear_error s).msg_buf.buff (MAX_USER_ERR_MSG_SIZE + 1) = some [] := by
  refine ⟨?_, rfl, rfl, c_str_clear_error s _⟩
  unfold log_and_clear_on_error
  by_cases h : err = OK
  · simp [h]
  · simp only [ne_eq, h, not_false_eq_true, if_true, if_false]
    exact log_and_clear_error_eq L err s

/-- C6 (output format): in a state whose cells `0 .. D-1` hold the non-null frames `fs`,
whose message buffer holds the string `m` and for a code decoded as `d`, `log_traceback`
writes the header, the `D` frame lines from cell `D-1` down to cell 0, the `Error:` line,
and the `Error message:` line exactly when `m` is not empty. -/
theorem log_traceback_format (L : libc) (err : Int) (d : String) (s : tracy_state)
    (fs : List (String × String × Int)) (m : List Char)
    (hdepth : s.stack_ptr = fs.length)
    (hcells : ∀ k : Nat, k < fs.length →
      (fs.map frame_of)[k]? = some (s.local_stack.buffer k))
    (hm : c_str s.msg_buf.buff (MAX_USER_ERR_MSG_SIZE + 1) = some m)
    (hd : (get_error_string L err).2 = some d) :
    log_traceback L err s =
      some (s, "CC Traceback:\n" ::
        (fs.reverse.map (fun f =>
            "  File \"" ++ f.1 ++ "\", line " ++ toString f.2.2 ++ ", in " ++ f.2.1 ++ "\n")
          ++ ["Error: " ++ d ++ " (" ++ toString err ++ ")\n"]
          ++ (if m = [] then [] else ["Error message: " ++ String.mk m ++ "\n"]))) := by
  have hn : s.stack_ptr.toNat = fs.length := by rw [hdepth]; simp
  have hloop := log_traceback_loop_frames s.local_stack.buffer fs fs.length (le_refl _) hcells
  rw [← hn] at hloop
  rw [log_traceback_eq L err s _ _ d hloop hd (message_line_of_c_str s.msg_buf m hm)]
  simp only [hn, List.take_length, List.map_reverse]
  rfl

set_option maxRecDepth 100000 in
theorem log_traceback_format_witness :
    log_traceback example_libc 5
        (__set_error_msg "disk full".toList
          (__add_error_trace (some "a.c") (some "inner") 20
            (__add_error_trace (some "a.c") (some "outer") 10
              (clear_error zero_state)).1).1)
      = some (__set_error_msg "disk full".toList
          (__add_error_trace (some "a.c") (some "inner") 20
            (__add_error_trace (some "a.c") (some "outer") 10
              (clear_error zero_state)).1).1,
        ["CC Traceback:\n", "  File \"a.c\", line 20, in inner\n",
         "  File \"a.c\", line 10, in outer\n", "Error: I/O error (5)\n",
         "Error message: disk full\n"]) :=
  log_traceback_format example_libc 5
    "I/O error" _ [("a.c", "outer", 10), ("a.c", "inner", 20)] "disk full".toList rfl
    (fun k hk => by
      have hk2 : k < 2 := hk
      interval_cases k <;> rfl)
    (by decide) rfl

/-- C7 (clear): `clear_error` yields depth 0 and an empty message in every state, applying
it twice gives the same state as applying it once, and it returns an already empty state
(depth 0, empty message) unchanged. -/
theorem clear_error_clears (s : tracy_state) :
    (clear_error s).stack_ptr = 0
    ∧ (clear_error s).msg_buf.buff 0 = '\x00'
    ∧ c_str (clear_error s).msg_buf.buff (MAX_USER_ERR_MSG_SIZE + 1) = some []
    ∧ clear_error (clear_error s) = clear_error s
    ∧ (s.stack_ptr = 0 → s.msg_buf.buff 0 = '\x00' → clear_error s = s) := by
  refine ⟨rfl, rfl, c_str_clear_error s _, ?_, ?_⟩
  · unfold clear_error
    congr 2
    funext i
    by_cases hi : i = 0 <;> simp [hi]
  · intro hp hm
    obtain ⟨stack, p, save, ⟨buff⟩⟩ := s
    simp only at hp hm
    subst hp
    unfold clear_error
    congr 2
    funext i
    by_cases hi : i = 0
    · simp [hi, hm]
    · simp [hi]

theorem clear_error_clears_witness : clear_error zero_state = zero_state :=
  (clear_error_clears zero_state).2.2.2.2 rfl rfl

/-- C8 (depth invariant): in every state reached from the zero-initialised state by a
finite sequence of calls of the public interface, the depth `stack_ptr` and the checkpoint
`stack_ptr_save` are within `0 .. MAX_STACK_SIZE`. -/
theorem depth_invariant (L : libc) (OK : Int) (ops : List op) (s : tracy_state)
    (out : List String) (h : run L OK ops zero_state = some (s, out)) :
    0 ≤ s.stack_ptr ∧ s.stack_ptr ≤ MAX_STACK_SIZE
      ∧ 0 ≤ s.stack_ptr_save ∧ s.stack_ptr_save ≤ MAX_STACK_SIZE :=
  run_bounds L OK ops zero_state s out h (by decide)

set_option maxRecDepth 100000 in
theorem depth_invariant_witness :
    ∃ s out,
      run example_libc 0 example_ops zero_state = some (s, out)
      ∧ 0 ≤ s.stack_ptr ∧ s.stack_ptr ≤ MAX_STACK_SIZE
      ∧ 0 ≤ s.stack_ptr_save ∧ s.stack_ptr_save ≤ MAX_STACK_SIZE :=
  ⟨_, _, rfl, depth_invariant example_libc 0 example_ops _ _ rfl⟩

/-- C9 (render is a pure read): a completed `log_traceback` returns the state it was given,
so depth, cells, checkpoint and message are unchanged, and a second `log_traceback` with
the same code writes the same text again. -/
theorem log_traceback_pure (L : libc) (err : Int) (s s1 : tracy_state) (out : List String)
    (h : log_traceback L err s = some (s1, out)) :
    s1 = s
    ∧ s1.stack_ptr = s.stack_ptr
    ∧ (∀ i : Int, s1.local_stack.buffer i = s.local_stack.buffer i)
    ∧ s1.stack_ptr_save = s.stack_ptr_save
    ∧ (∀ i : Nat, s1.msg_buf.buff i = s.msg_buf.buff i)
    ∧ log_traceback L err s1 = some (s1, out) := by
  have hs := log_traceback_state L err s s1 out h
  subst hs
  exact ⟨rfl, rfl, fun _ => rfl, rfl, fun _ => rfl, h⟩

set_option maxRecDepth 100000 in
theorem log_traceback_pure_witness :
    ∃ s1 out,
      log_traceback example_libc 5
        (__set_error_msg "disk full".toList
          (__add_error_trace (some "a.c") (some "outer") 10 zero_state).1) = some (s1, out)
      ∧ log_traceback example_libc 5 s1 = some (s1, out) :=
  ⟨_, _, rfl, (log_traceback_pure example_libc 5
    (__set_error_msg "disk full".toList
      (__add_error_trace (some "a.c") (some "outer") 10 zero_state).1) _ _ rfl).2.2.2.2.2⟩

/-- C10 (unknown error code), evaluated on the code: in a build that takes the XSI branch,
for a code that `strerror_r` rejects, `get_error_string` writes its diagnostic and returns
the null pointer, and `log_traceback` hands that pointer to the `%s` conversion of the
`Error:` line; no placeholder text is substituted. -/
theorem log_traceback_unknown_code :
    get_error_string
        ⟨true, fun e => if e = 5 then (0, "Input/output error") else (22, "Unknown error"),
          fun _ => none, fun _ => 22⟩ 99999
      = (["Error: strerror_r returned errno 22\n"], none)
    ∧ log_traceback
        ⟨true, fun e => if e = 5 then (0, "Input/output error") else (22, "Unknown error"),
          fun _ => none, fun _ => 22⟩ 99999 zero_state = none
    ∧ (log_traceback
        ⟨true, fun e => if e = 5 then (0, "Input/output error") else (22, "Unknown error"),
          fun _ => none, fun _ => 22⟩ 99999 zero_state).map Prod.snd
      ≠ some ["CC Traceback:\n", "Error: unknown (99999)\n"] := by
  have h : log_traceback
      ⟨true, fun e => if e = 5 then (0, "Input/output error") else (22, "Unknown error"),
        fun _ => none, fun _ => 22⟩ 99999 zero_state = none :=
    log_traceback_null _ _ _ rfl
  refine ⟨by decide, h, ?_⟩
  rw [h]
  simp

/-! ## Lemmas on call sequences -/

/-- The state after one call, by the kind of the call. -/
theorem step_cases (L : libc) (OK : Int) (o : op) (s s1 : tracy_state) (out : List String)
    (h : step L OK o s = some (s1, out)) :
    (o = op.save_checkpoint ∧ s1 = save_traceback_position s)
    ∨ s1 = s
    ∨ s1 = clear_error s
    ∨ s1 = restore_traceback_position s
    ∨ (∃ file func line, s1 = (__add_error_trace file func line s).1)
    ∨ (∃ text, s1 = __set_error_msg text s) := by
  have hrc : ∀ err : Int, log_and_clear_error L err s = some (s1, out) → s1 = clear_error s := by
    intro err he
    rw [log_and_clear_error_eq] at he
    simp only [Option.map_eq_some', Prod.mk.injEq] at he
    obtain ⟨r, -, hr, -⟩ := he
    exact hr.symm
  cases o with
  | clear =>
    simp only [step, Option.some.injEq, Prod.mk.injEq] at h
    exact Or.inr (Or.inr (Or.inl h.1.symm))
  | save_checkpoint =>
    simp only [step, Option.some.injEq, Prod.mk.injEq] at h
    exact Or.inl ⟨rfl, h.1.symm⟩
  | restore_checkpoint =>
    simp only [step, Option.some.injEq, Prod.mk.injEq] at h
    exact Or.inr (Or.inr (Or.inr (Or.inl h.1.symm)))
  | begin file func line =>
    simp only [step, __start_error, Option.some.injEq] at h
    exact Or.inr (Or.inr (Or.inr (Or.inr (Or.inl ⟨file, func, line, by rw [h]⟩))))
  | push_frame file func line =>
    simp only [step, Option.some.injEq] at h
    exact Or.inr (Or.inr (Or.inr (Or.inr (Or.inl ⟨file, func, line, by rw [h]⟩))))
  | set_message text =>
    simp only [step, Option.some.injEq, Prod.mk.injEq] at h
    exact Or.inr (Or.inr (Or.inr (Or.inr (Or.inr ⟨text, h.1.symm⟩))))
  | render err =>
    simp only [step] at h
    exact Or.inr (Or.inl (log_traceback_state L err s s1 out h))
  | render_and_clear err =>
    simp only [step] at h
    exact Or.inr (Or.inr (Or.inl (hrc err h)))
  | render_and_clear_if_error err =>
    simp only [step, log_and_clear_on_error] at h
    by_cases he : err = OK
    · simp only [he, ne_eq, not_true_eq_false, if_false, Option.some.injEq,
        Prod.mk.injEq] at h
      exact Or.inr (Or.inl h.1.symm)
    · simp only [ne_eq, he, not_false_eq_true, if_true] at h
      exact Or.inr (Or.inr (Or.inl (hrc err h)))

/-- A property of the state that every call of a kind `Q` preserves holds after every
sequence of calls of that kind. -/
theorem run_invariant (L : libc) (OK : Int) (P : tracy_state → Prop) (Q : op → Prop)
    (hstep : ∀ (o : op) (s s1 : tracy_state) (out : List String),
      Q o → step L OK o s = some (s1, out) → P s → P s1)
    (ops : List op) (s s1 : tracy_state) (out : List String)
    (hQ : ∀ o ∈ ops, Q o) (h : run L OK ops s = some (s1, out)) (hP : P s) : P s1 := by
  induction ops generalizing s out with
  | nil =>
    simp only [run, Option.some.injEq, Prod.mk.injEq] at h
    rw [← h.1]; exact hP
  | cons o os ih =>
    simp only [run] at h
    cases hs : step L OK o s with
    | none => rw [hs] at h; exact absurd h (by simp)
    | some r =>
      obtain ⟨s2, out2⟩ := r
      rw [hs] at h
      simp only at h
      cases hr : run L OK os s2 with
      | none => rw [hr] at h; exact absurd h (by simp)
      | some r2 =>
        obtain ⟨s3, out3⟩ := r2
        rw [hr] at h
        simp only [Option.some.injEq, Prod.mk.injEq] at h
        obtain ⟨h1, -⟩ := h
        subst h1
        exact ih s2 out3 (fun o1 ho1 => hQ o1 (List.mem_cons_of_mem _ ho1)) hr
          (hstep o s s2 out2 (hQ o (List.mem_cons_self _ _)) hs hP)

theorem add_error_trace_save_msg (file func : Option String) (line : Int) (s : tracy_state) :
    (__add_error_trace file func line s).1.stack_ptr_save = s.stack_ptr_save
    ∧ (__add_error_trace file func line s).1.msg_buf = s.msg_buf := by
  rcases lt_or_le s.stack_ptr MAX_STACK_SIZE with h | h
  · rw [add_error_trace_room _ _ _ _ h]; exact ⟨rfl, rfl⟩
  · rw [add_error_trace_full _ _ _ _ h]; exact ⟨rfl, rfl⟩

/-- Without a call of `save_traceback_position` the checkpoint keeps its initial value. -/
theorem run_no_save (L : libc) (OK : Int) (ops : List op) (s s1 : tracy_state)
    (out : List String) (hns : ∀ o ∈ ops, o ≠ op.save_checkpoint)
    (h : run L OK ops s = some (s1, out)) (h0 : s.stack_ptr_save = 0) :
    s1.stack_ptr_save = 0 := by
  refine run_invariant L OK (fun t => t.stack_ptr_save = 0) (fun o => o ≠ op.save_checkpoint)
    ?_ ops s s1 out hns h h0
  intro o t t1 out1 hQ hs hP
  rcases step_cases L OK o t t1 out1 hs with h1 | h1 | h1 | h1 | h1 | h1
  · exact absurd h1.1 hQ
  · rw [h1]; exact hP
  · rw [h1]; exact hP
  · rw [h1]; exact hP
  · obtain ⟨file, func, line, h2⟩ := h1
    rw [h2, (add_error_trace_save_msg file func line t).1]; exact hP
  · obtain ⟨text, h2⟩ := h1
    rw [h2]; exact hP

/-- A buffer with a terminator among its first `cap` bytes holds a string. -/
theorem c_str_defined (buff : Nat → Char) (cap i : Nat) (hi : i < cap)
    (h0 : buff i = '\x00') : ∃ t, c_str buff cap = some t := by
  obtain ⟨m, rfl⟩ : ∃ m, cap = i + (m + 1) := ⟨cap - i - 1, by omega⟩
  refine ⟨((List.range i).map buff).takeWhile (fun c => c ≠ '\x00'), ?_⟩
  unfold c_str
  rw [List.range_add, List.map_append, List.range_succ_eq_map, List.map_cons, List.map_cons]
  simp only [Nat.add_zero, h0]
  exact scan_str_append_nul _ _

/-- In every state reached from the zero-initialised state the message buffer holds a
terminator within its first 512 bytes. -/
theorem run_msg_terminated (L : libc) (OK : Int) (ops : List op) (s : tracy_state)
    (out : List String) (h : run L OK ops zero_state = some (s, out)) :
    ∃ i : Nat, i < MAX_USER_ERR_MSG_SIZE ∧ s.msg_buf.buff i = '\x00' := by
  refine run_invariant L OK
    (fun t => ∃ i : Nat, i < MAX_USER_ERR_MSG_SIZE ∧ t.msg_buf.buff i = '\x00')
    (fun _ => True) ?_ ops zero_state s out (fun _ _ => trivial) h ⟨0, by decide, rfl⟩
  intro o t t1 out1 _ hs hP
  rcases step_cases L OK o t t1 out1 hs with h1 | h1 | h1 | h1 | h1 | h1
  · rw [h1.2]; exact hP
  · rw [h1]; exact hP
  · rw [h1]; exact ⟨0, by decide, rfl⟩
  · rw [h1]; exact hP
  · obtain ⟨file, func, line, h2⟩ := h1
    rw [h2, (add_error_trace_save_msg file func line t).2]; exact hP
  · obtain ⟨text, h2⟩ := h1
    rw [h2]
    refine ⟨min text.length (MAX_USER_ERR_MSG_SIZE - 1), ?_, ?_⟩
    · exact lt_of_le_of_lt (Nat.min_le_right _ _) (by decide)
    · have hne : ¬ (MAX_USER_ERR_MSG_SIZE = 0) := by decide
      simp only [__set_error_msg, vsnprintf, hne, if_false, lt_irrefl, if_true]

/-! ## Lemmas on the lines of a traceback -/

/-- The parts of the text written by a completed `log_traceback`. -/
theorem log_traceback_parts (L : libc) (err : Int) (s s1 : tracy_state) (out : List String)
    (h : log_traceback L err s = some (s1, out)) :
    ∃ frames d msg,
      log_traceback_loop s.local_stack.buffer s.stack_ptr.toNat = some frames
      ∧ (get_error_string L err).2 = some d
      ∧ message_line s.msg_buf = some msg
      ∧ out = "CC Traceback:\n" ::
          (frames ++ ["Error: " ++ d ++ " (" ++ toString err ++ ")\n"] ++ msg) := by
  have h1 : (s.stack_ptr - 1 + 1).toNat = s.stack_ptr.toNat := by
    congr 1; omega
  cases hf : log_traceback_loop s.local_stack.buffer s.stack_ptr.toNat with
  | none =>
    unfold log_traceback at h
    rw [h1, hf] at h
    exact absurd h (by simp)
  | some frames =>
    cases hd : (get_error_string L err).2 with
    | none => rw [log_traceback_null L err s hd] at h; exact absurd h (by simp)
    | some d =>
      cases hm : message_line s.msg_buf with
      | none =>
        unfold log_traceback at h
        rw [h1, hf] at h
        simp only [fmt_s, hd, hm] at h
        exact absurd h (by simp)
      | some msg =>
        rw [log_traceback_eq L err s frames msg d hf hd hm] at h
        simp only [Option.some.injEq, Prod.mk.injEq] at h
        exact ⟨frames, d, msg, rfl, rfl, rfl, h.2.symm⟩

/-- The loop writes one entry per cell, each a frame line followed by a newline. -/
theorem log_traceback_loop_entries (b : Int → stack_buff_t) (n : Nat) (frames : List String)
    (h : log_traceback_loop b n = some frames) :
    ∃ xs : List String, frames = xs.map (fun x => x ++ "\n") ∧ xs.length = n
      ∧ ∀ x ∈ xs, ∃ k : Nat, k < n ∧ ∃ file func : String,
          (b (k : Int)).file = some file ∧ (b (k : Int)).func = some func
          ∧ x = "  File \"" ++ file ++ "\", line " ++ toString (b (k : Int)).line
                  ++ ", in " ++ func := by
  induction n generalizing frames with
  | zero =>
    simp only [log_traceback_loop, Option.some.injEq] at h
    subst h
    exact ⟨[], rfl, rfl, fun x hx => absurd hx (List.not_mem_nil x)⟩
  | succ n ih =>
    simp only [log_traceback_loop] at h
    cases hl : frame_line (b (n : Int)) with
    | none => rw [hl] at h; exact absurd h (by simp)
    | some l =>
      rw [hl] at h
      cases hr : log_traceback_loop b n with
      | none => rw [hr] at h; exact absurd h (by simp)
      | some ls =>
        rw [hr] at h
        simp only [Option.some.injEq] at h
        subst h
        obtain ⟨xs, hxs, hlen, hform⟩ := ih ls hr
        unfold frame_line at hl
        cases hfile : (b (n : Int)).file with
        | none => simp [fmt_s, hfile] at hl
        | some file =>
          cases hfunc : (b (n : Int)).func with
          | none => simp [fmt_s, hfile, hfunc] at hl
          | some func =>
            simp only [fmt_s, hfile, hfunc, Option.some.injEq] at hl
            refine ⟨("  File \"" ++ file ++ "\", line " ++ toString (b (n : Int)).line
                ++ ", in " ++ func) :: xs, ?_, by simp [hlen], ?_⟩
            · rw [List.map_cons, ← hxs, ← hl]
              rfl
            · intro x hx
              rcases List.mem_cons.mp hx with hx1 | hx1
              · exact ⟨n, Nat.lt_succ_self n, file, func, hfile, hfunc, hx1⟩
              · obtain ⟨k, hk, hrest⟩ := hform x hx1
                exact ⟨k, Nat.lt_succ_of_lt hk, hrest⟩

/-- The optional message line: absent for an empty message, one line otherwise. -/
theorem message_line_cases (m : msg_data_t) (msg : List String)
    (h : message_line m = some msg) :
    (m.buff 0 = '\x00' ∧ msg = [])
    ∨ (m.buff 0 ≠ '\x00' ∧ ∃ t, c_str m.buff (MAX_USER_ERR_MSG_SIZE + 1) = some t
        ∧ msg = ["Error message: " ++ String.mk t ++ "\n"]) := by
  unfold message_line at h
  by_cases h0 : m.buff 0 = '\x00'
  · simp only [h0, ne_eq, not_true_eq_false, if_false, Option.some.injEq] at h
    exact Or.inl ⟨h0, h.symm⟩
  · simp only [ne_eq, h0, not_false_eq_true, if_true] at h
    cases hc : c_str m.buff (MAX_USER_ERR_MSG_SIZE + 1) with
    | none => rw [hc] at h; exact absurd h (by simp)
    | some t =>
      rw [hc] at h
      simp only [Option.some.injEq] at h
      exact Or.inr ⟨h0, t, rfl, h.symm⟩

/-- A line whose first six characters are not `Error ` does not start with
`Error message: `. -/
theorem not_message_line (l : String)
    (h : l.toList.take 6 ≠ ['E', 'r', 'r', 'o', 'r', ' ']) :
    l.toList.take 15 ≠ "Error message: ".toList := by
  intro hc
  apply h
  have h6 : (l.toList.take 15).take 6 = l.toList.take 6 := by
    rw [List.take_take]
    rfl
  rw [← h6, hc]
  decide

theorem take_six_append (a b : String) (ha : 6 ≤ a.length) :
    (a ++ b).toList.take 6 = a.toList.take 6 := by
  show (a ++ b).data.take 6 = a.data.take 6
  rw [String.data_append, List.take_append_of_le_length ha]

theorem six_le_append (a b : String) (ha : 6 ≤ a.length) : 6 ≤ (a ++ b).length := by
  rw [String.length_append]; omega

theorem digitChar_ne_newline : ∀ n : Nat, n < 10 → Nat.digitChar n ≠ '\n' := by
  decide

theorem toDigitsCore_no_newline (fuel n : Nat) (ds : List Char) (h : '\n' ∉ ds) :
    '\n' ∉ Nat.toDigitsCore 10 fuel n ds := by
  induction fuel generalizing n ds with
  | zero => exact h
  | succ fuel ih =>
    have hds : '\n' ∉ Nat.digitChar (n % 10) :: ds := by
      intro hc
      rcases List.mem_cons.mp hc with hc1 | hc1
      · exact digitChar_ne_newline _ (Nat.mod_lt n (by decide)) hc1.symm
      · exact h hc1
    unfold Nat.toDigitsCore
    by_cases hn : n / 10 = 0
    · simp only [hn, if_true]
      exact hds
    · simp only [hn, if_false]
      exact ih _ _ hds

/-- The text of a `%d` conversion holds no newline. -/
theorem toString_int_no_newline (i : Int) : '\n' ∉ (toString i).toList := by
  cases i with
  | ofNat m =>
    show '\n' ∉ Nat.toDigitsCore 10 (m + 1) m []
    exact toDigitsCore_no_newline _ _ _ (List.not_mem_nil _)
  | negSucc m =>
    show '\n' ∉ ("-" ++ toString (Nat.succ m)).data
    rw [String.data_append, List.mem_append, not_or]
    refine ⟨by decide, ?_⟩
    show '\n' ∉ Nat.toDigitsCore 10 (Nat.succ m + 1) (Nat.succ m) []
    exact toDigitsCore_no_newline _ _ _ (List.not_mem_nil _)

/-- A run of characters without a newline, followed by a newline, is the first line. -/
theorem text_lines_line (x rest : List Char) (hx : '\n' ∉ x) :
    text_lines (x ++ '\n' :: rest) = x :: text_lines rest := by
  induction x with
  | nil => simp [text_lines]
  | cons c cs ih =>
    have hc : c ≠ '\n' := fun hc => hx (by rw [hc]; exact List.mem_cons_self _ _)
    have hcs : '\n' ∉ cs := fun hcs => hx (List.mem_cons_of_mem _ hcs)
    show text_lines (c :: (cs ++ '\n' :: rest)) = (c :: cs) :: text_lines rest
    rw [text_lines, if_neg hc, ih hcs]

/-- Entries that each hold one line and its newline give one text line each. -/
theorem text_lines_entries (xs : List String) (h : ∀ x ∈ xs, '\n' ∉ x.toList) :
    text_lines (stderr_text (xs.map (fun x => x ++ "\n"))) = xs.map String.toList := by
  induction xs with
  | nil => rfl
  | cons x xs ih =>
    have hx : '\n' ∉ x.data := h x (List.mem_cons_self _ _)
    have hxs := ih (fun y hy => h y (List.mem_cons_of_mem _ hy))
    have hd : (x ++ "\n").toList = x.data ++ ['\n'] := by
      show (x ++ "\n").data = x.data ++ ['\n']
      rw [String.data_append]
    simp only [List.map_cons, stderr_text, hd, List.append_assoc, List.singleton_append]
    rw [text_lines_line _ _ hx, hxs]
    rfl

theorem frame_entry_no_newline (file func : String) (line : Int)
    (hfile : '\n' ∉ file.toList) (hfunc : '\n' ∉ func.toList) :
    '\n' ∉ ("  File \"" ++ file ++ "\", line " ++ toString line ++ ", in " ++ func).toList := by
  show '\n' ∉ ("  File \"" ++ file ++ "\", line " ++ toString line ++ ", in " ++ func).data
  simp only [String.data_append, List.mem_append, not_or]
  exact ⟨⟨⟨⟨⟨by decide, hfile⟩, by decide⟩, toString_int_no_newline line⟩, by decide⟩, hfunc⟩

theorem error_entry_no_newline (d : String) (err : Int) (hd : '\n' ∉ d.toList) :
    '\n' ∉ ("Error: " ++ d ++ " (" ++ toString err ++ ")").toList := by
  show '\n' ∉ ("Error: " ++ d ++ " (" ++ toString err ++ ")").data
  simp only [String.data_append, List.mem_append, not_or]
  exact ⟨⟨⟨⟨by decide, hd⟩, by decide⟩, toString_int_no_newline err⟩, by decide⟩

theorem message_entry_no_newline (t : List Char) (ht : '\n' ∉ t) :
    '\n' ∉ ("Error message: " ++ String.mk t).toList := by
  show '\n' ∉ ("Error message: " ++ String.mk t).data
  simp only [String.data_append, List.mem_append, not_or]
  exact ⟨by decide, ht⟩

theorem frame_entry_not_message (file func : String) (line : Int) :
    ("  File \"" ++ file ++ "\", line " ++ toString line ++ ", in " ++ func).toList.take 15
      ≠ "Error message: ".toList := by
  apply not_message_line
  have h1 : 6 ≤ ("  File \"" ++ file).length := six_le_append _ _ (by decide)
  have h2 := six_le_append _ "\", line " h1
  have h3 := six_le_append _ (toString line) h2
  have h4 := six_le_append _ ", in " h3
  rw [take_six_append _ _ h4, take_six_append _ _ h3,
    take_six_append _ _ h2, take_six_append _ _ h1, take_six_append _ _ (by decide)]
  decide

theorem error_entry_not_message (d : String) (err : Int) :
    ("Error: " ++ d ++ " (" ++ toString err ++ ")").toList.take 15
      ≠ "Error message: ".toList := by
  apply not_message_line
  have h1 : 6 ≤ ("Error: " ++ d).length := six_le_append _ _ (by decide)
  have h2 := six_le_append _ " (" h1
  have h3 := six_le_append _ (toString err) h2
  rw [take_six_append _ _ h3, take_six_append _ _ h2, take_six_append _ _ h1,
    take_six_append _ _ (by decide)]
  decide

theorem message_entry_is_message (t : List Char) :
    ("Error message: " ++ String.mk t).toList.take 15 = "Error message: ".toList := by
  show ("Error message: " ++ String.mk t).data.take 15 = "Error message: ".data
  rw [String.data_append, List.take_append_of_le_length (by decide)]
  decide

/-! ## Claims, continued -/

/-- C11 (restore without save): after any sequence of calls from the zero-initialised state
that contains no `save_checkpoint`, `restore_traceback_position` sets the depth to 0, and a
following `log_traceback` writes the header, the `Error:` line and the optional message
line, with no frame line. -/
theorem restore_without_save (L : libc) (OK : Int) (ops : List op) (s : tracy_state)
    (out : List String) (h : run L OK ops zero_state = some (s, out))
    (hns : ∀ o ∈ ops, o ≠ op.save_checkpoint) (err : Int) (d : String)
    (hd : (get_error_string L err).2 = some d) :
    (restore_traceback_position s).stack_ptr = 0
    ∧ ∃ m, c_str s.msg_buf.buff (MAX_USER_ERR_MSG_SIZE + 1) = some m
      ∧ log_traceback L err (restore_traceback_position s)
        = some (restore_traceback_position s,
            ["CC Traceback:\n", "Error: " ++ d ++ " (" ++ toString err ++ ")\n"]
              ++ (if m = [] then [] else ["Error message: " ++ String.mk m ++ "\n"])) := by
  have hsave : s.stack_ptr_save = 0 := run_no_save L OK ops zero_state s out hns h rfl
  have hp : (restore_traceback_position s).stack_ptr = 0 := hsave
  obtain ⟨i, hi, h0⟩ := run_msg_terminated L OK ops s out h
  obtain ⟨m, hm⟩ := c_str_defined s.msg_buf.buff (MAX_USER_ERR_MSG_SIZE + 1) i
    (Nat.lt_succ_of_lt hi) h0
  refine ⟨hp, m, hm, ?_⟩
  have hloop : log_traceback_loop (restore_traceback_position s).local_stack.buffer
      (restore_traceback_position s).stack_ptr.toNat = some [] := by
    rw [hp]; rfl
  rw [log_traceback_eq L err _ [] _ d hloop hd
    (message_line_of_c_str (restore_traceback_position s).msg_buf m hm)]
  rfl

set_option maxRecDepth 100000 in
theorem restore_without_save_witness :
    ∃ s out,
      run example_libc 0 example_ops_no_save zero_state = some (s, out)
      ∧ s.stack_ptr = 3
      ∧ (restore_traceback_position s).stack_ptr = 0 :=
  ⟨_, _, rfl, rfl,
    (restore_without_save example_libc 0 example_ops_no_save _ _ rfl
      (fun o ho => by
        simp only [example_ops_no_save, List.mem_cons, List.mem_singleton,
          List.not_mem_nil, or_false] at ho
        rcases ho with h | h | h | h | h <;> rw [h] <;> simp)
      5 "I/O error" rfl).1⟩

/-- C12, as amended (message line presence): for a completed `log_traceback` whose strings
(file and function of the cells below the depth, decoded error string, message) hold no
newline, the text on stderr has a line that starts with `Error message: ` exactly when the
message is not empty; with an empty message it has depth + 2 lines and ends with the
`Error:` line, with a non-empty message it has depth + 3 lines and ends with the message
line. -/
theorem message_line_presence (L : libc) (err : Int) (s s1 : tracy_state)
    (out : List String) (h : log_traceback L err s = some (s1, out))
    (hcells : ∀ k : Nat, k < s.stack_ptr.toNat → ∀ p : String,
      ((s.local_stack.buffer (k : Int)).file = some p
        ∨ (s.local_stack.buffer (k : Int)).func = some p) → '\n' ∉ p.toList)
    (hdec : ∀ d : String, (get_error_string L err).2 = some d → '\n' ∉ d.toList)
    (hmsg : ∀ m : List Char,
      c_str s.msg_buf.buff (MAX_USER_ERR_MSG_SIZE + 1) = some m → '\n' ∉ m) :
    ((∃ l ∈ text_lines (stderr_text out), l.take 15 = "Error message: ".toList)
      ↔ s.msg_buf.buff 0 ≠ '\x00')
    ∧ (s.msg_buf.buff 0 = '\x00' →
        (text_lines (stderr_text out)).length = s.stack_ptr.toNat + 2
        ∧ ∃ d, (get_error_string L err).2 = some d
          ∧ (text_lines (stderr_text out)).getLast?
              = some ("Error: " ++ d ++ " (" ++ toString err ++ ")").toList)
    ∧ (s.msg_buf.buff 0 ≠ '\x00' →
        (text_lines (stderr_text out)).length = s.stack_ptr.toNat + 3
        ∧ ∃ m, c_str s.msg_buf.buff (MAX_USER_ERR_MSG_SIZE + 1) = some m ∧ m ≠ []
          ∧ (text_lines (stderr_text out)).getLast?
              = some ("Error message: " ++ String.mk m).toList) := by
  obtain ⟨frames, d, msg, hf, hd, hm, hout⟩ := log_traceback_parts L err s s1 out h
  obtain ⟨xs, hxs, hlen, hform⟩ := log_traceback_loop_entries _ _ _ hf
  have hxs_nl : ∀ x ∈ xs, '\n' ∉ x.toList := by
    intro x hx
    obtain ⟨k, hk, file, func, hfile, hfunc, rfl⟩ := hform x hx
    exact frame_entry_no_newline _ _ _ (hcells k hk file (Or.inl hfile))
      (hcells k hk func (Or.inr hfunc))
  have hxs_nm : ∀ x ∈ xs, x.toList.take 15 ≠ "Error message: ".toList := by
    intro x hx
    obtain ⟨k, -, file, func, -, -, rfl⟩ := hform x hx
    exact frame_entry_not_message _ _ _
  have herr_nl := error_entry_no_newline d err (hdec d hd)
  have herr_nm := error_entry_not_message d err
  have hhead_nl : '\n' ∉ "CC Traceback:".toList := by decide
  have hhead_eq : "CC Traceback:\n" = "CC Traceback:" ++ "\n" := by decide
  have herr_eq : "Error: " ++ d ++ " (" ++ toString err ++ ")\n"
      = "Error: " ++ d ++ " (" ++ toString err ++ ")" ++ "\n" := by
    rw [String.append_assoc _ ")" "\n"]
    rfl
  have hhead_nm : "CC Traceback:".toList.take 15 ≠ "Error message: ".toList := by decide
  rcases message_line_cases _ _ hm with ⟨h0, hmsg0⟩ | ⟨h0, t, ht, hmsg1⟩
  · have hout2 : out = ("CC Traceback:" ::
        (xs ++ ["Error: " ++ d ++ " (" ++ toString err ++ ")"])).map (fun x => x ++ "\n") := by
      rw [hout, hxs, hmsg0, hhead_eq, herr_eq]
      simp only [List.map_cons, List.map_append, List.map_nil, List.append_nil]
    have hlines := text_lines_entries ("CC Traceback:" ::
        (xs ++ ["Error: " ++ d ++ " (" ++ toString err ++ ")"])) (by
      intro x hx
      simp only [List.mem_cons, List.mem_append, List.mem_singleton, List.not_mem_nil,
        or_false] at hx
      rcases hx with hx | hx | hx
      · rw [hx]; exact hhead_nl
      · exact hxs_nl x hx
      · rw [hx]; exact herr_nl)
    rw [← hout2] at hlines
    rw [hlines]
    refine ⟨?_, ?_, ?_⟩
    · constructor
      · rintro ⟨l, hl, hl15⟩
        simp only [List.map_cons, List.map_append, List.map_nil, List.mem_cons,
          List.mem_append, List.mem_map, List.mem_singleton, List.not_mem_nil,
          or_false] at hl
        rcases hl with hl | ⟨x, hx, hl⟩ | hl
        · rw [hl] at hl15; exact absurd hl15 hhead_nm
        · rw [← hl] at hl15; exact absurd hl15 (hxs_nm x hx)
        · rw [hl] at hl15; exact absurd hl15 herr_nm
      · intro hne; exact absurd h0 hne
    · intro _
      refine ⟨by simp [hlen], d, hd, ?_⟩
      rw [List.map_cons, List.map_append, ← List.cons_append]
      exact List.getLast?_concat _
    · intro hne; exact absurd h0 hne
  · have htne : t ≠ [] := fun hc =>
      h0 ((c_str_nil_iff s.msg_buf.buff MAX_USER_ERR_MSG_SIZE t ht).mp hc)
    have hout2 : out = ("CC Traceback:" ::
        (xs ++ ["Error: " ++ d ++ " (" ++ toString err ++ ")"]
          ++ ["Error message: " ++ String.mk t])).map (fun x => x ++ "\n") := by
      rw [hout, hxs, hmsg1, hhead_eq, herr_eq]
      simp only [List.map_cons, List.map_append, List.map_nil]
    have hlines := text_lines_entries ("CC Traceback:" ::
        (xs ++ ["Error: " ++ d ++ " (" ++ toString err ++ ")"]
          ++ ["Error message: " ++ String.mk t])) (by
      intro x hx
      simp only [List.mem_cons, List.mem_append, List.mem_singleton, List.not_mem_nil,
        or_false] at hx
      rcases hx with hx | (hx | hx) | hx
      · rw [hx]; exact hhead_nl
      · exact hxs_nl x hx
      · rw [hx]; exact herr_nl
      · rw [hx]; exact message_entry_no_newline t (hmsg t ht))
    rw [← hout2] at hlines
    rw [hlines]
    refine ⟨?_, ?_, ?_⟩
    · constructor
      · intro _; exact h0
      · intro _
        exact ⟨("Error message: " ++ String.mk t).toList, by simp,
          message_entry_is_message t⟩
    · intro hc; exact absurd hc h0
    · intro _
      refine ⟨by simp [hlen], t, ht, htne, ?_⟩
      rw [List.map_cons, List.map_append, ← List.cons_append]
      exact List.getLast?_concat _

set_option maxRecDepth 100000 in
theorem message_line_presence_witness :
    ∃ s1 out,
      log_traceback example_libc 5
        (__set_error_msg "disk full".toList
          (__add_error_trace (some "a.c") (some "outer") 10 zero_state).1) = some (s1, out)
      ∧ text_lines (stderr_text out)
          = ["CC Traceback:".toList, "  File \"a.c\", line 10, in outer".toList,
             "Error: I/O error (5)".toList, "Error message: disk full".toList]
      ∧ (text_lines (stderr_text out)).length = 1 + 3
      ∧ ∃ l ∈ text_lines (stderr_text out), l.take 15 = "Error message: ".toList :=
  ⟨_, _, rfl, by decide,
    ((message_line_presence example_libc 5
      (__set_error_msg "disk full".toList
        (__add_error_trace (some "a.c") (some "outer") 10 zero_state).1) _ _ rfl
      (fun k hk p hp => by
        have hk1 : k < 1 := hk
        interval_cases k
        rcases hp with hp | hp
        · rw [← Option.some.inj hp]; decide
        · rw [← Option.some.inj hp]; decide)
      (fun d hd => by rw [← Option.some.inj hd]; decide)
      (fun m hm => by
        have hm2 : some "disk full".toList = some m := hm
        rw [← Option.some.inj hm2]; decide)).2.2 (by decide)).1,
    (message_line_presence example_libc 5
      (__set_error_msg "disk full".toList
        (__add_error_trace (some "a.c") (some "outer") 10 zero_state).1) _ _ rfl
      (fun k hk p hp => by
        have hk1 : k < 1 := hk
        interval_cases k
        rcases hp with hp | hp
        · rw [← Option.some.inj hp]; decide
        · rw [← Option.some.inj hp]; decide)
      (fun d hd => by rw [← Option.some.inj hd]; decide)
      (fun m hm => by
        have hm2 : some "disk full".toList = some m := hm
        rw [← Option.some.inj hm2]; decide)).1.mpr (by decide)⟩

set_option maxRecDepth 100000 in
/-- C12 as stated fails: (1) with an empty message and depth 1, a frame whose file name
holds a newline gives 4 lines, not depth + 2, one of which starts with `Error message: `;
(2) with depth 0, a message that holds a newline gives 4 lines, not depth + 3; (3) for a
code that the XSI `strerror_r` rejects, `get_error_string` writes a line of its own before
the `Error:` line and `log_traceback` has no defined text at all. -/
theorem message_line_presence_counterexample :
    (∃ s1 out,
      log_traceback example_libc 5
        (__add_error_trace (some "a.c\nError message: x") (some "f") 1 zero_state).1
        = some (s1, out)
      ∧ (__add_error_trace (some "a.c\nError message: x") (some "f") 1
          zero_state).1.msg_buf.buff 0 = '\x00'
      ∧ (__add_error_trace (some "a.c\nError message: x") (some "f") 1
          zero_state).1.stack_ptr = 1
      ∧ (text_lines (stderr_text out)).length = 4
      ∧ (text_lines (stderr_text out)).length ≠ 1 + 2
      ∧ ∃ l ∈ text_lines (stderr_text out), l.take 15 = "Error message: ".toList)
    ∧ (∃ s1 out,
      log_traceback example_libc 5 (__set_error_msg "a\nb".toList zero_state)
        = some (s1, out)
      ∧ (__set_error_msg "a\nb".toList zero_state).msg_buf.buff 0 ≠ '\x00'
      ∧ (__set_error_msg "a\nb".toList zero_state).stack_ptr = 0
      ∧ (text_lines (stderr_text out)).length = 4
      ∧ (text_lines (stderr_text out)).length ≠ 0 + 3)
    ∧ ((get_error_string
          ⟨true, fun e => if e = 5 then (0, "Input/output error") else (22, "Unknown error"),
            fun _ => none, fun _ => 0⟩ 99999).1
        = ["Error: strerror_r returned errno 0\n"]
      ∧ log_traceback
          ⟨true, fun e => if e = 5 then (0, "Input/output error") else (22, "Unknown error"),
            fun _ => none, fun _ => 0⟩ 99999 zero_state = none) :=
  ⟨⟨_, _, rfl, rfl, rfl, by decide, by decide, by decide⟩,
   ⟨_, _, rfl, by decide, rfl, by decide, by decide⟩,
   ⟨by decide, log_traceback_null _ _ _ rfl⟩⟩

/-- C13 (begin is push_frame): `__start_error` returns the same state and the same stderr
text as `__add_error_trace` for the same arguments, also as a call of the public
interface and also at depth `MAX_STACK_SIZE`; it keeps the cells below the depth, the
checkpoint and the message, and never lowers the depth. -/
theorem start_error_is_add_error_trace (L : libc) (OK : Int) (file func : Option String)
    (line : Int) (s : tracy_state) :
    __start_error file func line s = __add_error_trace file func line s
    ∧ step L OK (op.begin file func line) s = step L OK (op.push_frame file func line) s
    ∧ (s.stack_ptr ≥ MAX_STACK_SIZE →
        __start_error file func line s
          = (s, ["Warning: error stack overflow (no room for stack trace)\n"]))
    ∧ (s.stack_ptr < MAX_STACK_SIZE →
        (__start_error file func line s).1.stack_ptr = s.stack_ptr + 1
        ∧ (__start_error file func line s).2 = [])
    ∧ s.stack_ptr ≤ (__start_error file func line s).1.stack_ptr
    ∧ (∀ i : Int, i < s.stack_ptr →
        (__start_error file func line s).1.local_stack.buffer i = s.local_stack.buffer i)
    ∧ (__start_error file func line s).1.stack_ptr_save = s.stack_ptr_save
    ∧ (__start_error file func line s).1.msg_buf = s.msg_buf := by
  have hsm := add_error_trace_save_msg file func line s
  refine ⟨rfl, rfl, ?_, ?_, ?_, ?_, hsm.1, hsm.2⟩
  · intro h
    exact add_error_trace_full file func line s h
  · intro h
    unfold __start_error
    rw [add_error_trace_room _ _ _ _ h]
    exact ⟨rfl, rfl⟩
  · unfold __start_error
    rcases lt_or_le s.stack_ptr MAX_STACK_SIZE with h | h
    · rw [add_error_trace_room _ _ _ _ h]
      simp only
      omega
    · rw [add_error_trace_full _ _ _ _ h]
  · intro i hi
    unfold __start_error
    rcases lt_or_le s.stack_ptr MAX_STACK_SIZE with h | h
    · rw [add_error_trace_room _ _ _ _ h]
      have hne : i ≠ s.stack_ptr := by omega
      simp [hne]
    · rw [add_error_trace_full _ _ _ _ h]

theorem start_error_is_add_error_trace_witness :
    __start_error (some "a.c") (some "f") 1 { zero_state with stack_ptr := 1024 }
        = ({ zero_state with stack_ptr := 1024 },
           ["Warning: error stack overflow (no room for stack trace)\n"])
    ∧ (__start_error (some "a.c") (some "f") 1 zero_state).1.stack_ptr = 0 + 1 :=
  ⟨(start_error_is_add_error_trace example_libc 0 (some "a.c") (some "f") 1
      { zero_state with stack_ptr := 1024 }).2.2.1 (by decide),
   ((start_error_is_add_error_trace example_libc 0 (some "a.c") (some "f") 1
      zero_state).2.2.2.1 (by decide)).1⟩

theorem depth_bounds_of_run (L : libc) (OK : Int) (ops : List op) (s : tracy_state)
    (out : List String) (h : run L OK ops zero_state = some (s, out)) :
    0 ≤ s.stack_ptr ∧ s.stack_ptr ≤ MAX_STACK_SIZE
      ∧ 0 ≤ s.stack_ptr_save ∧ s.stack_ptr_save ≤ MAX_STACK_SIZE :=
  run_bounds L OK ops zero_state s out h (by decide)

/-- The loop reads exactly the cells `0 .. n - 1`. -/
theorem log_traceback_reads_mem (n : Nat) (i : Int) :
    i ∈ log_traceback_reads n ↔ 0 ≤ i ∧ i < n := by
  induction n with
  | zero =>
    simp only [log_traceback_reads, List.not_mem_nil, false_iff]
    omega
  | succ n ih =>
    simp only [log_traceback_reads, List.mem_cons, ih]
    constructor
    · rintro (h | h)
      · subst h; exact ⟨by omega, by push_cast; omega⟩
      · exact ⟨h.1, by push_cast; omega⟩
    · rintro ⟨h1, h2⟩
      push_cast at h2
      by_cases hi : i = n
      · exact Or.inl hi
      · exact Or.inr ⟨h1, by omega⟩

/-- C15 (index safety): in every state reached from the zero-initialised state by calls of
the public interface, the cell that `__add_error_trace` writes (when its overflow guard
does not return first) and every cell that the loop of `log_traceback` reads lie in
`0 .. MAX_STACK_SIZE - 1`; `__add_error_trace` changes no other cell, the loop depends on
no other cell, and when no cell is written the call only writes the warning. -/
theorem index_safety (L : libc) (OK : Int) (ops : List op) (s : tracy_state)
    (out : List String) (h : run L OK ops zero_state = some (s, out)) :
    (∀ i : Int, add_error_trace_write s = some i → 0 ≤ i ∧ i < MAX_STACK_SIZE)
    ∧ (∀ i ∈ log_traceback_reads (s.stack_ptr - 1 + 1).toNat, 0 ≤ i ∧ i < MAX_STACK_SIZE)
    ∧ (∀ (file func : Option String) (line : Int) (j : Int),
        add_error_trace_write s ≠ some j →
        (__add_error_trace file func line s).1.local_stack.buffer j = s.local_stack.buffer j)
    ∧ (∀ (file func : Option String) (line : Int),
        add_error_trace_write s = none →
        __add_error_trace file func line s
          = (s, ["Warning: error stack overflow (no room for stack trace)\n"]))
    ∧ (∀ b : Int → stack_buff_t,
        (∀ i ∈ log_traceback_reads (s.stack_ptr - 1 + 1).toNat, b i = s.local_stack.buffer i) →
        log_traceback_loop b (s.stack_ptr - 1 + 1).toNat
          = log_traceback_loop s.local_stack.buffer (s.stack_ptr - 1 + 1).toNat) := by
  obtain ⟨h1, h2, -, -⟩ := depth_bounds_of_run L OK ops s out h
  refine ⟨?_, ?_, ?_, ?_, ?_⟩
  · intro i hi
    unfold add_error_trace_write at hi
    by_cases hge : s.stack_ptr ≥ MAX_STACK_SIZE
    · simp [hge] at hi
    · simp only [hge, if_false, Option.some.injEq] at hi
      subst hi
      exact ⟨h1, not_le.mp hge⟩
  · intro i hi
    rw [log_traceback_reads_mem] at hi
    refine ⟨hi.1, ?_⟩
    have := hi.2
    omega
  · intro file func line j hj
    unfold add_error_trace_write at hj
    by_cases hge : s.stack_ptr ≥ MAX_STACK_SIZE
    · rw [add_error_trace_full _ _ _ _ hge]
    · simp only [hge, if_false, ne_eq, Option.some.injEq] at hj
      rw [add_error_trace_room _ _ _ _ (not_le.mp hge)]
      have hne : j ≠ s.stack_ptr := fun hc => hj hc.symm
      simp [hne]
  · intro file func line hnone
    unfold add_error_trace_write at hnone
    by_cases hge : s.stack_ptr ≥ MAX_STACK_SIZE
    · exact add_error_trace_full _ _ _ _ hge
    · simp [hge] at hnone
  · intro b hb
    apply log_traceback_loop_congr
    intro k hk
    apply hb
    rw [log_traceback_reads_mem]
    exact ⟨by omega, by exact_mod_cast hk⟩

set_option maxRecDepth 100000 in
theorem index_safety_witness :
    ∃ s out,
      run example_libc 0 example_ops zero_state = some (s, out)
      ∧ add_error_trace_write s = some 1
      ∧ ∀ i ∈ log_traceback_reads (s.stack_ptr - 1 + 1).toNat, 0 ≤ i ∧ i < MAX_STACK_SIZE :=
  ⟨_, _, rfl, rfl, (index_safety example_libc 0 example_ops _ _ rfl).2.1⟩

/-- C16 (push stores verbatim): at a depth `d < MAX_STACK_SIZE`, `__add_error_trace` with
any `file`, `func` and `line` yields depth `d + 1` with cell `d` holding exactly
`(file, func, line)`; every other cell, the checkpoint and the message are unchanged and
nothing is written to stderr. -/
theorem add_error_trace_stores (file func : Option String) (line : Int) (s : tracy_state)
    (h : s.stack_ptr < MAX_STACK_SIZE) :
    (__add_error_trace file func line s).1.stack_ptr = s.stack_ptr + 1
    ∧ (__add_error_trace file func line s).1.local_stack.buffer s.stack_ptr
        = ⟨file, func, line⟩
    ∧ (∀ i : Int, i ≠ s.stack_ptr →
        (__add_error_trace file func line s).1.local_stack.buffer i = s.local_stack.buffer i)
    ∧ (__add_error_trace file func line s).1.stack_ptr_save = s.stack_ptr_save
    ∧ (__add_error_trace file func line s).1.msg_buf = s.msg_buf
    ∧ (__add_error_trace file func line s).2 = [] := by
  rw [add_error_trace_room _ _ _ _ h]
  refine ⟨rfl, by simp, ?_, rfl, rfl, rfl⟩
  intro i hi
  simp [hi]

theorem add_error_trace_stores_witness :
    (__add_error_trace (some "") (some "") (-5) zero_state).1.stack_ptr = 0 + 1
    ∧ (__add_error_trace (some "") (some "") (-5) zero_state).1.local_stack.buffer 0
        = ⟨some "", some "", -5⟩ :=
  ⟨(add_error_trace_stores (some "") (some "") (-5) zero_state (by decide)).1,
   (add_error_trace_stores (some "") (some "") (-5) zero_state (by decide)).2.1⟩

/-- C17 (single checkpoint): after a save at depth `D1`, pushes, a save at depth `D2`, more
pushes and two restores, the depth is `D2` after the first restore and after the second;
the checkpoint holds the depth of the latest save only, and
`restore_traceback_position` is idempotent. -/
theorem single_checkpoint (s : tracy_state) (fs1 fs2 : List stack_buff_t) :
    (push_frames fs2 (save_traceback_position
        (push_frames fs1 (save_traceback_position s)).1)).1.stack_ptr_save
      = (push_frames fs1 (save_traceback_position s)).1.stack_ptr
    ∧ (restore_traceback_position (push_frames fs2 (save_traceback_position
        (push_frames fs1 (save_traceback_position s)).1)).1).stack_ptr
      = (push_frames fs1 (save_traceback_position s)).1.stack_ptr
    ∧ (restore_traceback_position (restore_traceback_position
        (push_frames fs2 (save_traceback_position
          (push_frames fs1 (save_traceback_position s)).1)).1)).stack_ptr
      = (push_frames fs1 (save_traceback_position s)).1.stack_ptr
    ∧ (∀ t : tracy_state,
        restore_traceback_position (restore_traceback_position t)
          = restore_traceback_position t)
    ∧ (s.stack_ptr + fs1.length ≤ MAX_STACK_SIZE →
        (push_frames fs1 (save_traceback_position s)).1.stack_ptr = s.stack_ptr + fs1.length) := by
  have hsave := (push_frames_save_msg fs2 (save_traceback_position
    (push_frames fs1 (save_traceback_position s)).1)).1
  have h1 : (push_frames fs2 (save_traceback_position
        (push_frames fs1 (save_traceback_position s)).1)).1.stack_ptr_save
      = (push_frames fs1 (save_traceback_position s)).1.stack_ptr := hsave
  refine ⟨h1, h1, h1, fun t => rfl, ?_⟩
  intro hroom
  exact (push_frames_room fs1 (save_traceback_position s) hroom).1

theorem single_checkpoint_witness :
    (push_frames [frame_of ("a.c", "f", 1), frame_of ("a.c", "g", 2)]
        (save_traceback_position zero_state)).1.stack_ptr = 0 + 2
    ∧ (restore_traceback_position (push_frames [frame_of ("a.c", "h", 3)]
        (save_traceback_position
          (push_frames [frame_of ("a.c", "f", 1), frame_of ("a.c", "g", 2)]
            (save_traceback_position zero_state)).1)).1).stack_ptr
      = (push_frames [frame_of ("a.c", "f", 1), frame_of ("a.c", "g", 2)]
        (save_traceback_position zero_state)).1.stack_ptr :=
  ⟨(single_checkpoint zero_state [frame_of ("a.c", "f", 1), frame_of ("a.c", "g", 2)]
      [frame_of ("a.c", "h", 3)]).2.2.2.2 (by decide),
   (single_checkpoint zero_state [frame_of ("a.c", "f", 1), frame_of ("a.c", "g", 2)]
      [frame_of ("a.c", "h", 3)]).2.1⟩

/-- The text written by a render depends on the message buffer only through its message
line. -/
theorem log_traceback_congr_line (L : libc) (err : Int) (s1 s2 : tracy_state)
    (hp : s1.stack_ptr = s2.stack_ptr) (hb : s1.local_stack = s2.local_stack)
    (hm : message_line s1.msg_buf = message_line s2.msg_buf) :
    (log_traceback L err s1).map Prod.snd = (log_traceback L err s2).map Prod.snd := by
  unfold log_traceback
  rw [hp, hb, hm]
  cases log_traceback_loop s2.local_stack.buffer (s2.stack_ptr - 1 + 1).toNat with
  | none => rfl
  | some frames =>
    cases fmt_s (get_error_string L err).2 with
    | none => rfl
    | some d =>
      cases message_line s2.msg_buf with
      | none => rfl
      | some msg => rfl

/-- C18 (set_message overwrites): the string stored after `__set_error_msg` of `t1` and
then of `t2` is the string stored after `__set_error_msg` of `t2` alone, whatever the
buffer held before, so the message line and the text of `log_traceback` are the same;
`__set_error_msg` leaves the depth, the cells and the checkpoint unchanged. -/
theorem set_error_msg_overwrites (t1 t2 : List Char) (s : tracy_state) :
    c_str (__set_error_msg t2 (__set_error_msg t1 s)).msg_buf.buff (MAX_USER_ERR_MSG_SIZE + 1)
      = c_str (__set_error_msg t2 s).msg_buf.buff (MAX_USER_ERR_MSG_SIZE + 1)
    ∧ (∀ s2 : tracy_state,
        c_str (__set_error_msg t2 s2).msg_buf.buff (MAX_USER_ERR_MSG_SIZE + 1)
          = c_str (__set_error_msg t2 s).msg_buf.buff (MAX_USER_ERR_MSG_SIZE + 1))
    ∧ (∃ m, c_str (__set_error_msg t2 s).msg_buf.buff (MAX_USER_ERR_MSG_SIZE + 1) = some m)
    ∧ c_str (__set_error_msg [] (__set_error_msg t1 s)).msg_buf.buff
        (MAX_USER_ERR_MSG_SIZE + 1) = some []
    ∧ message_line (__set_error_msg t2 (__set_error_msg t1 s)).msg_buf
        = message_line (__set_error_msg t2 s).msg_buf
    ∧ (∀ (L : libc) (err : Int),
        (log_traceback L err (__set_error_msg t2 (__set_error_msg t1 s))).map Prod.snd
          = (log_traceback L err (__set_error_msg t2 s)).map Prod.snd)
    ∧ (__set_error_msg t2 s).stack_ptr = s.stack_ptr
    ∧ (__set_error_msg t2 s).local_stack = s.local_stack
    ∧ (__set_error_msg t2 s).stack_ptr_save = s.stack_ptr_save := by
  have hc : ∀ s2 : tracy_state,
      c_str (__set_error_msg t2 s2).msg_buf.buff (MAX_USER_ERR_MSG_SIZE + 1)
        = c_str (__set_error_msg t2 s).msg_buf.buff (MAX_USER_ERR_MSG_SIZE + 1) := by
    intro s2
    rw [set_error_msg_c_str, set_error_msg_c_str]
  have hm : message_line (__set_error_msg t2 (__set_error_msg t1 s)).msg_buf
      = message_line (__set_error_msg t2 s).msg_buf := by
    rw [message_line_of_c_str _ _ (set_error_msg_c_str t2 (__set_error_msg t1 s)),
      message_line_of_c_str _ _ (set_error_msg_c_str t2 s)]
  refine ⟨hc _, hc, ⟨_, set_error_msg_c_str t2 s⟩, ?_, hm, ?_, rfl, rfl, rfl⟩
  · rw [set_error_msg_c_str]
    rfl
  · intro L err
    exact log_traceback_congr_line L err _ _ rfl rfl hm

/-- C19 (clear keeps the checkpoint): `clear_error` leaves `stack_ptr_save` and the cells
unchanged, so after a save at depth `D`, `clear_error` and
`restore_traceback_position` the depth is `D` again, and `log_traceback` lists the `D`
frames that the cells still hold, without a message line. -/
theorem clear_keeps_checkpoint (s : tracy_state) :
    (clear_error s).stack_ptr_save = s.stack_ptr_save
    ∧ (clear_error s).local_stack = s.local_stack
    ∧ (clear_error (save_traceback_position s)).stack_ptr = 0
    ∧ (restore_traceback_position (clear_error (save_traceback_position s))).stack_ptr
        = s.stack_ptr
    ∧ ∀ (L : libc) (err : Int) (d : String) (fs : List (String × String × Int)),
        s.stack_ptr = fs.length →
        (∀ k : Nat, k < fs.length → (fs.map frame_of)[k]? = some (s.local_stack.buffer k)) →
        (get_error_string L err).2 = some d →
        log_traceback L err
            (restore_traceback_position (clear_error (save_traceback_position s)))
          = some (restore_traceback_position (clear_error (save_traceback_position s)),
              "CC Traceback:\n" ::
                (fs.reverse.map (fun f =>
                    "  File \"" ++ f.1 ++ "\", line " ++ toString f.2.2 ++ ", in " ++ f.2.1
                      ++ "\n")
                  ++ ["Error: " ++ d ++ " (" ++ toString err ++ ")\n"])) := by
  refine ⟨rfl, rfl, rfl, rfl, ?_⟩
  intro L err d fs hdepth hcells hd
  have hp : (restore_traceback_position (clear_error (save_traceback_position s))).stack_ptr
      = fs.length := hdepth
  have hn : (restore_traceback_position
      (clear_error (save_traceback_position s))).stack_ptr.toNat = fs.length := by
    rw [hp]; simp
  have hloop := log_traceback_loop_frames
    (restore_traceback_position (clear_error (save_traceback_position s))).local_stack.buffer
    fs fs.length (le_refl _) hcells
  rw [← hn] at hloop
  rw [log_traceback_eq L err _ _ [] d hloop hd (message_line_empty _ rfl)]
  simp only [hn, List.take_length, List.map_reverse, List.append_nil]
  rfl

set_option maxRecDepth 100000 in
theorem clear_keeps_checkpoint_witness :
    log_traceback example_libc 5
        (restore_traceback_position (clear_error (save_traceback_position
          (__set_error_msg "disk full".toList
            (__add_error_trace (some "a.c") (some "inner") 20
              (__add_error_trace (some "a.c") (some "outer") 10 zero_state).1).1))))
      = some (restore_traceback_position (clear_error (save_traceback_position
          (__set_error_msg "disk full".toList
            (__add_error_trace (some "a.c") (some "inner") 20
              (__add_error_trace (some "a.c") (some "outer") 10 zero_state).1).1))),
        ["CC Traceback:\n", "  File \"a.c\", line 20, in inner\n",
         "  File \"a.c\", line 10, in outer\n", "Error: I/O error (5)\n"]) :=
  (clear_keeps_checkpoint
    (__set_error_msg "disk full".toList
      (__add_error_trace (some "a.c") (some "inner") 20
        (__add_error_trace (some "a.c") (some "outer") 10 zero_state).1).1)).2.2.2.2
    example_libc 5 "I/O error" [("a.c", "outer", 10), ("a.c", "inner", 20)] rfl
    (fun k hk => by
      have hk2 : k < 2 := hk
      interval_cases k <;> rfl)
    rfl

end Tracy
